import Mathlib

/-!
Shallow embedding of the regex engine in src/src/lib.rs (a grep-style
pattern matcher with capture groups, alternation, quantifier backtracking
and back-references), together with theorems checking the specification's
claims against it.

Strings are modelled as lists of characters.  The match-time evaluator in
the source can diverge (for example a star inside a plus, where the inner
matcher succeeds consuming nothing), so the evaluator here takes a fuel
parameter; running out of fuel is a distinguished outcome, as is reaching
one of the source's panic sites (the todo on the Alternative arm, the
expect on pop_divided, and the usize underflow in the Range backtracking
arm).
-/

namespace GrepRust

/-- Error type of the engine, from the Error enum in lib.rs. -/
inductive Error where
  | EOF : Error
  | UnknownCharacterType : Char → Error
  | UnterminatedGroup : Error
deriving DecidableEq, Repr

/-- Single-character matchers, from enum SingleCharacterMatcher. -/
inductive SingleCharacterMatcher where
  | Literal : Char → SingleCharacterMatcher
  | Any : SingleCharacterMatcher
  | Digit : SingleCharacterMatcher
  | Alphanumeric : SingleCharacterMatcher
  | Group : List SingleCharacterMatcher → SingleCharacterMatcher
  | NegativeGroup : List SingleCharacterMatcher → SingleCharacterMatcher

/-- Pattern-tree nodes, from enum Matcher. -/
inductive Matcher where
  | Repeat : Matcher → Option Nat → Option Nat → Matcher
  | CaptureGroup : List Matcher → Matcher
  | SingleCharacter : SingleCharacterMatcher → Matcher
  | Backreference : Nat → Matcher
  | StartOfString : Matcher
  | EndOfString : Matcher
  | Alternative : Matcher

/-- SingleCharacterMatcher::new_class.  The source tests
ch.is_alphanumeric (Unicode); for the ASCII patterns in scope the Lean
Char.isAlphanum predicate coincides with it. -/
def SingleCharacterMatcher.newClass (c : Char) : Except Error SingleCharacterMatcher :=
  if ¬ c.isAlphanum then .ok (.Literal c)
  else if c = 'd' then .ok .Digit
  else if c = 'w' then .ok .Alphanumeric
  else .error (.UnknownCharacterType c)

/-- Loop of SingleCharacterMatcher::new_group with new_in_group inlined:
read bracket-set members until the closing bracket, erroring at end of
input; a backslash escape consumes the next character through new_class. -/
def SingleCharacterMatcher.newGroupLoop :
    List Char → List SingleCharacterMatcher →
    Except Error (List SingleCharacterMatcher × List Char)
  | [], _ => .error .EOF
  | c :: rest, opts =>
    if c = ']' then .ok (opts, rest)
    else if c = '\\' then
      match rest with
      | [] => .error .EOF
      | d :: rest' =>
        match SingleCharacterMatcher.newClass d with
        | .error e => .error e
        | .ok o => SingleCharacterMatcher.newGroupLoop rest' (opts ++ [o])
    else SingleCharacterMatcher.newGroupLoop rest (opts ++ [.Literal c])

/-- SingleCharacterMatcher::new: dispatch on the next pattern character.
In the bracket-set arm, a leading caret (the head of the remainder) makes
the set negative and is consumed before the member loop starts. -/
def SingleCharacterMatcher.new :
    List Char → Except Error (SingleCharacterMatcher × List Char)
  | [] => .error .EOF
  | c :: rest =>
    if c = '\\' then
      match rest with
      | [] => .error .EOF
      | d :: rest' =>
        match SingleCharacterMatcher.newClass d with
        | .error e => .error e
        | .ok o => .ok (o, rest')
    else if c = '[' then
      if rest.head? = some '^' then
        match SingleCharacterMatcher.newGroupLoop rest.tail [] with
        | .error e => .error e
        | .ok (opts, r) => .ok (.NegativeGroup opts, r)
      else
        match SingleCharacterMatcher.newGroupLoop rest [] with
        | .error e => .error e
        | .ok (opts, r) => .ok (.Group opts, r)
    else if c = '.' then .ok (.Any, rest)
    else .ok (.Literal c, rest)

mutual

/-- SingleCharacterMatcher::test. -/
def SingleCharacterMatcher.test : SingleCharacterMatcher → Char → Bool
  | .Literal c, ch => c = ch
  | .Digit, ch => ch.isDigit
  | .Alphanumeric, ch => ch.isAlphanum || ch = '_'
  | .Group opts, ch => SingleCharacterMatcher.testAny opts ch
  | .NegativeGroup opts, ch => ! SingleCharacterMatcher.testAny opts ch
  | .Any, _ => true

/-- Iterator any over the members of a bracket set. -/
def SingleCharacterMatcher.testAny : List SingleCharacterMatcher → Char → Bool
  | [], _ => false
  | o :: opts, ch => SingleCharacterMatcher.test o ch || SingleCharacterMatcher.testAny opts ch

end

/-- Matcher::maybe_repeat: peek one character for a trailing quantifier. -/
def Matcher.maybeRepeat (m : Matcher) : List Char → Matcher × List Char
  | '+' :: rest => (.Repeat m (some 1) none, rest)
  | '*' :: rest => (.Repeat m none none, rest)
  | '?' :: rest => (.Repeat m none (some 1), rest)
  | l => (m, l)

/-- Tail of the catch-all arm of Matcher::new: parse a single-character
matcher and wrap a trailing quantifier around it. -/
def Matcher.newChar (l : List Char) : Option (Except Error (Matcher × List Char)) :=
  match SingleCharacterMatcher.new l with
  | .error e => some (.error e)
  | .ok (scm, r) => some (.ok (Matcher.maybeRepeat (.SingleCharacter scm) r))

mutual

/-- Matcher::new.  Fuel bounds the recursion through nested groups; the
sufficiency lemma below shows the engine's own choice of fuel never runs
out, so the none outcome is unreachable. -/
def Matcher.new : Nat → List Char → Option (Except Error (Matcher × List Char))
  | 0, _ => none
  | _ + 1, [] => some (.error .EOF)
  | fuel + 1, p :: rest =>
    if p = '^' then some (.ok (.StartOfString, rest))
    else if p = '$' then some (.ok (.EndOfString, rest))
    else if p = '(' then
      match Matcher.groupLoop fuel rest [] with
      | none => none
      | some (.error e) => some (.error e)
      | some (.ok (ms, r)) => some (.ok (Matcher.maybeRepeat (.CaptureGroup ms) r))
    else if p = '|' then some (.ok (.Alternative, rest))
    else if p = '\\' then
      match rest with
      | d :: rest' =>
        if d.isDigit then
          some (.ok (.Backreference (d.toNat - '0'.toNat), rest'))
        else Matcher.newChar ('\\' :: d :: rest')
      | [] => Matcher.newChar ['\\']
    else Matcher.newChar (p :: rest)

/-- Body loop of the open-parenthesis arm of Matcher::new: parse child
matchers until the closing parenthesis; end of input without one is an
unterminated group. -/
def Matcher.groupLoop :
    Nat → List Char → List Matcher → Option (Except Error (List Matcher × List Char))
  | 0, _, _ => none
  | _ + 1, [], _ => some (.error .UnterminatedGroup)
  | fuel + 1, p :: rest, acc =>
    if p = ')' then some (.ok (acc, rest))
    else
      match Matcher.new fuel (p :: rest) with
      | none => none
      | some (.error e) => some (.error e)
      | some (.ok (m, r)) => Matcher.groupLoop fuel r (acc ++ [m])

end

/-- Loop of Pattern::new: parse matchers until the pattern is exhausted. -/
def Pattern.newLoop :
    Nat → List Char → List Matcher → Option (Except Error (List Matcher))
  | 0, _, _ => none
  | _ + 1, [], acc => some (.ok acc)
  | fuel + 1, p :: rest, acc =>
    match Matcher.new fuel (p :: rest) with
    | none => none
    | some (.error e) => some (.error e)
    | some (.ok (m, r)) => Pattern.newLoop fuel r (acc ++ [m])

/-- A compiled pattern, from struct Pattern. -/
structure Pattern where
  matchers : List Matcher

/-- Pattern::new.  The fuel choice (twice the input length plus one) is
proved sufficient below, so the default arm is unreachable. -/
def Pattern.new (s : List Char) : Except Error Pattern :=
  match Pattern.newLoop (2 * s.length + 1) s [] with
  | some (.ok ms) => .ok ⟨ms⟩
  | some (.error e) => .error e
  | none => .error .EOF

/-- Outcome of running the fuelled evaluator: a value, a panic (one of the
source's panic sites was reached), or fuel exhaustion (the source would
still be running). -/
inductive Out (α : Type) where
  | ok : α → Out α
  | panicked : Out α
  | fuelOut : Out α
deriving DecidableEq, Repr

/-- Projection on evaluator outcomes. -/
def Out.map (f : α → β) : Out α → Out β
  | .ok a => .ok (f a)
  | .panicked => .panicked
  | .fuelOut => .fuelOut

/-- Input cursor, from struct BufferedIterator: the not-yet-consumed
enumerated characters, the record of every consumed character, and the
stack of subdivision buffers (head is the most recently pushed one).  The
source also caches one peeked element; peeking a pure list needs no cache,
and the cached form is observationally the same. -/
structure BufferedIterator where
  remaining : List (Nat × Char)
  buffer : List Char
  subbuffers : List (List Char)
deriving DecidableEq, Repr

/-- BufferedIterator::next: pop the next enumerated character, recording
it in the buffer and in every subdivision buffer. -/
def BufferedIterator.next (it : BufferedIterator) :
    Option ((Nat × Char) × BufferedIterator) :=
  match it.remaining with
  | [] => none
  | x :: rest => some (x, ⟨rest, it.buffer ++ [x.2], it.subbuffers.map (· ++ [x.2])⟩)

/-- BufferedIterator::subdivide: push a fresh subdivision buffer. -/
def BufferedIterator.subdivide (it : BufferedIterator) : BufferedIterator :=
  ⟨it.remaining, it.buffer, [] :: it.subbuffers⟩

/-- BufferedIterator::pop_divided: pop the most recent subdivision buffer. -/
def BufferedIterator.popDivided (it : BufferedIterator) :
    Option (List Char × BufferedIterator) :=
  match it.subbuffers with
  | [] => none
  | s :: rest => some (s, ⟨it.remaining, it.buffer, rest⟩)

/-- Resumption handles, from enum BacktrackInfo.  A Group handle carries
the in-alternative backtrack frames: each frame is the cursor before the
matcher, the group's captures before it, the matcher's own handle, and the
matchers left to re-run (struct GroupBacktrackState). -/
inductive BacktrackInfo where
  | Range : Nat → BacktrackInfo
  | Group : Nat →
      List (BufferedIterator × List (List Char) × BacktrackInfo × List Matcher) →
      BacktrackInfo
  | noInfo : BacktrackInfo

/-- One backtrack frame of a group evaluation (struct GroupBacktrackState). -/
abbrev GroupBacktrackState :=
  BufferedIterator × List (List Char) × BacktrackInfo × List Matcher

/-- Result quadruple of Matcher::test: matched flag, newly closed
captures, optional resumption handle, and the advanced cursor (the
source's mutable input argument). -/
abbrev TestResult := Bool × List (List Char) × Option BacktrackInfo × BufferedIterator

/-- Recogniser for the Alternative node (the PartialEq comparison the
source's slice split uses). -/
def Matcher.isAlt : Matcher → Bool
  | .Alternative => true
  | _ => false

/-- Slice split of a group body on Alternative markers, as in test_group. -/
def splitOnAlt : List Matcher → List (List Matcher)
  | [] => [[]]
  | m :: rest =>
    match splitOnAlt rest with
    | [] => [[]]
    | seg :: segs => if m.isAlt then [] :: seg :: segs else (m :: seg) :: segs

/-- Character-by-character consumption of a captured string by a
back-reference, short-circuiting at the first mismatch (the chars().all
call in the Backreference arm). -/
def backrefConsume : List Char → BufferedIterator → Bool × BufferedIterator
  | [], it => (true, it)
  | ch :: rest, it =>
    match it.next with
    | none => (false, it)
    | some ((_, c), it') =>
      if c = ch then backrefConsume rest it' else (false, it')

mutual

/-- Matcher::test.  Fuel decreases on every nested call; the source has no
fuel and can diverge, which the fuelOut outcome represents. -/
def Matcher.test : Nat → Matcher → BufferedIterator → List (List Char) →
    Option BacktrackInfo → Out TestResult
  | 0, _, _, _, _ => .fuelOut
  | fuel + 1, m, input, capturedGroups, backtrack =>
    match m with
    | .SingleCharacter c =>
      match input.next with
      | none => .ok (false, [], none, input)
      | some ((_, ch), input') => .ok (c.test ch, [], none, input')
    | .StartOfString =>
      .ok ((match input.remaining.head? with
            | some (idx, _) => decide (idx = 0)
            | none => false), [], none, input)
    | .EndOfString => .ok (input.remaining.head?.isNone, [], none, input)
    | .CaptureGroup inner => Matcher.testGroup fuel inner input capturedGroups backtrack
    | .Backreference index =>
      if index ≥ capturedGroups.length then .ok (false, [], none, input)
      else
        match backrefConsume (capturedGroups.getD index []) input with
        | (b, input') => .ok (b, [], none, input')
    | .Alternative => .panicked
    | .Repeat inner mn mx =>
      match Matcher.repeatLoop fuel inner capturedGroups backtrack mx 0 input with
      | .fuelOut => .fuelOut
      | .panicked => .panicked
      | .ok (count, input') =>
        match mn with
        | some mnv =>
          if count < mnv then .ok (false, [], none, input')
          else if count > 0 then .ok (true, [], some (.Range count), input')
          else .ok (true, [], none, input')
        | none =>
          if count > 0 then .ok (true, [], some (.Range count), input')
          else .ok (true, [], none, input')

/-- Greedy loop of the Repeat arm of Matcher::test: try the inner matcher
on a cloned cursor; on success, stop without consuming when resuming past
the cap (panicking on a zero-count handle, the usize underflow), else
commit the clone, bump the count and stop at max. -/
def Matcher.repeatLoop : Nat → Matcher → List (List Char) → Option BacktrackInfo →
    Option Nat → Nat → BufferedIterator → Out (Nat × BufferedIterator)
  | 0, _, _, _, _, _, _ => .fuelOut
  | fuel + 1, inner, capturedGroups, backtrack, mx, count, input =>
    match Matcher.test fuel inner input capturedGroups backtrack with
    | .fuelOut => .fuelOut
    | .panicked => .panicked
    | .ok (matched, _, _, inputClone) =>
      if ! matched then .ok (count, input)
      else
        let step : Out (Nat × BufferedIterator) :=
          match mx with
          | some mxv =>
            if count + 1 = mxv then .ok (count + 1, inputClone)
            else Matcher.repeatLoop fuel inner capturedGroups backtrack mx (count + 1) inputClone
          | none => Matcher.repeatLoop fuel inner capturedGroups backtrack mx (count + 1) inputClone
        match backtrack with
        | some (.Range consumed) =>
          if consumed = 0 then .panicked
          else if count ≥ consumed - 1 then .ok (count, input)
          else step
        | _ => step

/-- Inner while of test_group (the match loop): run the alternative's
matchers in order, pushing a backtrack frame for every matcher that
returns a handle; on failure pop the newest frame and resume there, or
give up on the alternative when no frame remains; on completion pop the
subdivision buffer (the panicking expect) and return it with the captures
and the remaining frames. -/
def Matcher.matchLoop : Nat → List (List Char) → List Matcher →
    List GroupBacktrackState → Option BacktrackInfo → BufferedIterator →
    List (List Char) → List (List Char) →
    Out (Option (BufferedIterator × List (List Char) × List GroupBacktrackState))
  | 0, _, _, _, _, _, _, _ => .fuelOut
  | fuel + 1, capturedGroups, ms, btStack, btInfo, bufInput, ourCaptures, allCaptures =>
    match ms with
    | [] =>
      match bufInput.popDivided with
      | none => .panicked
      | some (matchedValue, bufInput') =>
        .ok (some (bufInput', matchedValue :: ourCaptures, btStack))
    | m :: rest =>
      match Matcher.test fuel m bufInput allCaptures btInfo with
      | .fuelOut => .fuelOut
      | .panicked => .panicked
      | .ok (matched, captures, bt, bufInput') =>
        if matched then
          let btStack' :=
            match bt with
            | some b => (bufInput, ourCaptures, b, m :: rest) :: btStack
            | none => btStack
          Matcher.matchLoop fuel capturedGroups rest btStack' none bufInput'
            (ourCaptures ++ captures) (allCaptures ++ captures)
        else
          match btStack with
          | [] => .ok none
          | (sInput, sCaps, sBt, sMs) :: btStack' =>
            Matcher.matchLoop fuel capturedGroups sMs btStack' (some sBt) sInput sCaps
              (capturedGroups ++ [[]] ++ sCaps)

/-- Outer for of test_group (the option loop): try each Alternative-split
segment in order; a Group handle naming the current segment resumes it
from its saved frames, or skips it entirely when no frame remains. -/
def Matcher.optionLoop : Nat → List (List Char) → Option BacktrackInfo →
    BufferedIterator → List (List Matcher) → Nat → Out TestResult
  | 0, _, _, _, _, _ => .fuelOut
  | fuel + 1, capturedGroups, backtrack, input, options, optionId =>
    match options with
    | [] => .ok (false, [], none, input)
    | option :: restOptions =>
      let entry : Option (List GroupBacktrackState) :=
        match backtrack with
        | some (.Group stackOption stack) =>
          if stackOption = optionId then
            if stack.isEmpty then none else some stack
          else some []
        | _ => some []
      match entry with
      | none =>
        Matcher.optionLoop fuel capturedGroups backtrack input restOptions (optionId + 1)
      | some stack0 =>
        let start :
            List Matcher × List GroupBacktrackState × Option BacktrackInfo ×
              BufferedIterator × List (List Char) × List (List Char) :=
          match stack0 with
          | [] => (option, [], none, input.subdivide, [], capturedGroups ++ [[]])
          | (sInput, sCaps, sBt, sMs) :: stack' =>
            (sMs, stack', some sBt, sInput, sCaps, capturedGroups ++ [[]] ++ sCaps)
        match start with
        | (ms, stack1, btInfo, bufInput1, ourCaptures, allCaptures) =>
          match Matcher.matchLoop fuel capturedGroups ms stack1 btInfo bufInput1
              ourCaptures allCaptures with
          | .fuelOut => .fuelOut
          | .panicked => .panicked
          | .ok none =>
            Matcher.optionLoop fuel capturedGroups backtrack input restOptions (optionId + 1)
          | .ok (some (bufInput', ourCaptures', stack')) =>
            .ok (true, ourCaptures', some (.Group optionId stack'), bufInput')

/-- Matcher::test_group: split the body on Alternative and run the option
loop. -/
def Matcher.testGroup : Nat → List Matcher → BufferedIterator →
    List (List Char) → Option BacktrackInfo → Out TestResult
  | 0, _, _, _, _ => .fuelOut
  | fuel + 1, inner, input, capturedGroups, backtrack =>
    Matcher.optionLoop fuel capturedGroups backtrack input (splitOnAlt inner) 0

end

/-- Pattern::test_section: wrap the top-level sequence in an implicit
capture group and strip the whole-match capture (the source's
Vec::remove(0), which panics on an empty vector). -/
def Pattern.testSection (fuel : Nat) (p : Pattern) (input : BufferedIterator) :
    Out (Bool × List (List Char) × BufferedIterator) :=
  match Matcher.test fuel (.CaptureGroup p.matchers) input [] none with
  | .fuelOut => .fuelOut
  | .panicked => .panicked
  | .ok (matched, captures, _, input') =>
    if matched then
      match captures with
      | [] => .panicked
      | _ :: rest => .ok (true, rest, input')
    else .ok (false, [], input')

/-- Enumerated character stream, from chars().enumerate(). -/
def enumFrom : Nat → List Char → List (Nat × Char)
  | _, [] => []
  | n, c :: cs => (n, c) :: enumFrom (n + 1) cs

/-- While loop of Pattern::run: at each start position with a character
remaining, try test_section on a clone; on failure consume one character
(which stays in the clone's buffer) and retry. -/
def Pattern.runLoop (fuel : Nat) (p : Pattern) :
    List (Nat × Char) → List Char → Out (Bool × List Char × List (List Char))
  | [], _ => .ok (false, [], [])
  | x :: rest, buffer =>
    match Pattern.testSection fuel p ⟨x :: rest, buffer, []⟩ with
    | .fuelOut => .fuelOut
    | .panicked => .panicked
    | .ok (true, captures, input') => .ok (true, input'.buffer, captures)
    | .ok (false, _, _) => Pattern.runLoop fuel p rest (buffer ++ [x.2])

/-- Pattern::run. -/
def Pattern.run (fuel : Nat) (p : Pattern) (s : List Char) :
    Out (Bool × List Char × List (List Char)) :=
  Pattern.runLoop fuel p (enumFrom 0 s) []

/-- Pattern::test: the boolean component of Pattern::run. -/
def Pattern.test (fuel : Nat) (p : Pattern) (s : List Char) : Out Bool :=
  (Pattern.run fuel p s).map (·.1)

/-- End-to-end check used by the concrete theorems: compile the pattern
and run the matcher, exposing only the boolean verdict. -/
def checkMatch (fuel : Nat) (pat s : String) : Option Bool :=
  match Pattern.new pat.data with
  | .error _ => none
  | .ok p =>
    match Pattern.test fuel p s.data with
    | .ok b => some b
    | _ => none

/-- Shape of a quantifier body: the parser only ever wraps a
single-character matcher or a capture group in Repeat (maybe_repeat is
applied to exactly those two constructions). -/
def Matcher.baseShape : Matcher → Bool
  | .SingleCharacter _ => true
  | .CaptureGroup _ => true
  | _ => false

mutual

/-- Structural well-formedness of parsed matchers: every Repeat wraps a
single-character matcher or a capture group (so never an Alternative
marker), recursively. -/
def Matcher.wf : Matcher → Bool
  | .Repeat inner _ _ => inner.baseShape && Matcher.wf inner
  | .CaptureGroup l => Matcher.wfList l
  | _ => true

/-- Well-formedness of a matcher sequence. -/
def Matcher.wfList : List Matcher → Bool
  | [] => true
  | m :: rest => Matcher.wf m && Matcher.wfList rest

end

/-- An Alternative-split segment is well formed when its members are well
formed and none of them is itself the Alternative marker. -/
def Matcher.segOk (ms : List Matcher) : Bool :=
  Matcher.wfList ms && ms.all (fun m => ! m.isAlt)

/-- Well-formedness of a resumption handle resumed at subdivision depth d:
a Range handle always carries a positive count (so the give-back
subtraction cannot underflow), and a Group handle's frames live one
subdivision level deeper, with well-formed nested handles and
Alternative-free well-formed matcher suffixes. -/
inductive HandleOk : Nat → BacktrackInfo → Prop where
  | range : ∀ d n, 0 < n → HandleOk d (.Range n)
  | group : ∀ d id stack,
      (∀ fr ∈ stack, fr.1.subbuffers.length = d + 1) →
      (∀ fr ∈ stack, HandleOk (d + 1) fr.2.2.1) →
      (∀ fr ∈ stack, Matcher.segOk fr.2.2.2 = true) →
      HandleOk d (.Group id stack)
  | no : ∀ d, HandleOk d .noInfo

/-- Well-formedness of an optional handle. -/
def OptOk (d : Nat) (bt : Option BacktrackInfo) : Prop :=
  ∀ b, bt = some b → HandleOk d b

/-- Boolean verdict of test_section, when it neither panics nor runs out
of fuel. -/
def sectionVerdict (fuel : Nat) (p : Pattern) (it : BufferedIterator) : Option Bool :=
  match Pattern.testSection fuel p it with
  | .ok (b, _, _) => some b
  | _ => none

/-- Cursor state at the n-th start position of the unanchored search over
s: the first n characters have been consumed into the buffer. -/
def startIter (s : List Char) (n : Nat) : BufferedIterator :=
  ⟨(enumFrom 0 s).drop n, ((enumFrom 0 s).take n).map Prod.snd, []⟩

/-- Patterns avoiding the three characters that can lead the parser into
an error: no escape, no bracket set, no group. -/
def plainChars (s : List Char) : Prop :=
  '\\' ∉ s ∧ '[' ∉ s ∧ '(' ∉ s

/-- Observation on a compilation result: does the top-level matcher
sequence contain an Alternative node. -/
def Pattern.topLevelHasAlt (r : Except Error Pattern) : Bool :=
  match r with
  | .ok p => p.matchers.any Matcher.isAlt
  | .error _ => false

mutual

/-- Specification-side one-pass scan characterizing exactly when pattern
compilation fails and with which error, transcribed from the failure
conditions of the specification rather than from the engine's parser: a
backslash at end of input is the end-of-input error; a backslash escape
naming an alphanumeric other than d, w or a digit is the unknown-class
error; a bracket set is scanned by the companion function below; an open
parenthesis without a matching close is the unterminated-group error,
tracked by a depth counter (a close parenthesis at depth zero is an
ordinary literal); every other character is ordinary.  Quantifier
characters need no special treatment: consumed as a quantifier or as a
literal, they open no construct and cannot fail. -/
def specScan : List Char → Nat → Option Error
  | [], depth => if depth = 0 then none else some .UnterminatedGroup
  | c :: rest, depth =>
    if c = '\\' then
      match rest with
      | [] => some .EOF
      | d :: rest2 =>
        if d.isAlphanum ∧ ¬ d.isDigit ∧ d ≠ 'd' ∧ d ≠ 'w' then
          some (.UnknownCharacterType d)
        else specScan rest2 depth
    else if c = '[' then specScanInBracket rest true depth
    else if c = '(' then specScan rest (depth + 1)
    else if c = ')' then
      if depth = 0 then specScan rest 0 else specScan rest (depth - 1)
    else specScan rest depth
  termination_by structural l _ => l

/-- Scan of a bracket-set body for the specification-side
characterization: only literals and backslash-class forms are legal
inside brackets, the set ends at the closing bracket (resuming the outer
scan), end of input is the end-of-input error, and a backslash escape
naming an alphanumeric that is not d or w (digits included) is the
unknown-class error.  The boolean is true exactly when a leading caret
would still be read as the negation marker rather than a member. -/
def specScanInBracket : List Char → Bool → Nat → Option Error
  | [], _, _ => some .EOF
  | c :: rest, neg, depth =>
    if neg = true ∧ c = '^' then specScanInBracket rest false depth
    else if c = ']' then specScan rest depth
    else if c = '\\' then
      match rest with
      | [] => some .EOF
      | d :: rest2 =>
        if ¬ d.isAlphanum ∨ d = 'd' ∨ d = 'w' then
          specScanInBracket rest2 false depth
        else some (.UnknownCharacterType d)
    else specScanInBracket rest false depth
  termination_by structural l _ _ => l

end

/-!  Theorems.  -/

theorem Matcher.new_cons (fuel : Nat) (p : Char) (rest : List Char) :
    Matcher.new (fuel + 1) (p :: rest) =
      (if p = '^' then some (.ok (.StartOfString, rest))
       else if p = '$' then some (.ok (.EndOfString, rest))
       else if p = '(' then
         match Matcher.groupLoop fuel rest [] with
         | none => none
         | some (.error e) => some (.error e)
         | some (.ok (ms, r)) => some (.ok (Matcher.maybeRepeat (.CaptureGroup ms) r))
       else if p = '|' then some (.ok (.Alternative, rest))
       else if p = '\\' then
         match rest with
         | d :: rest' =>
           if d.isDigit then
             some (.ok (.Backreference (d.toNat - '0'.toNat), rest'))
           else Matcher.newChar ('\\' :: d :: rest')
         | [] => Matcher.newChar ['\\']
       else Matcher.newChar (p :: rest)) := rfl

theorem Pattern.newLoop_cons (fuel : Nat) (p : Char) (rest : List Char)
    (acc : List Matcher) :
    Pattern.newLoop (fuel + 1) (p :: rest) acc =
      (match Matcher.new fuel (p :: rest) with
       | none => none
       | some (.error e) => some (.error e)
       | some (.ok (m, r)) => Pattern.newLoop fuel r (acc ++ [m])) := rfl

theorem backrefConsume_spec (s : List Char) : ∀ it : BufferedIterator,
    (backrefConsume s it).1 = s.isPrefixOf (it.remaining.map Prod.snd) ∧
    (s.isPrefixOf (it.remaining.map Prod.snd) = true →
      (backrefConsume s it).2 =
        ⟨it.remaining.drop s.length, it.buffer ++ s, it.subbuffers.map (· ++ s)⟩) := by
  induction s with
  | nil =>
    intro it
    obtain ⟨rem, buf, subs⟩ := it
    refine ⟨by simp [backrefConsume, List.isPrefixOf], fun _ => ?_⟩
    simp [backrefConsume]
  | cons ch rest ih =>
    intro it
    obtain ⟨rem, buf, subs⟩ := it
    cases rem with
    | nil =>
      refine ⟨by simp [backrefConsume, BufferedIterator.next, List.isPrefixOf],
        fun hpre => ?_⟩
      simp [List.isPrefixOf] at hpre
    | cons x xs =>
      obtain ⟨i, c⟩ := x
      have hnext : backrefConsume (ch :: rest) ⟨(i, c) :: xs, buf, subs⟩ =
          (if c = ch then backrefConsume rest ⟨xs, buf ++ [c], subs.map (· ++ [c])⟩
           else (false, ⟨xs, buf ++ [c], subs.map (· ++ [c])⟩)) := rfl
      by_cases hx : c = ch
      · subst hx
        have h := ih ⟨xs, buf ++ [c], subs.map (· ++ [c])⟩
        refine ⟨?_, fun hpre => ?_⟩
        · simpa [hnext, List.isPrefixOf] using h.1
        · simp only [List.map_cons, List.isPrefixOf, beq_self_eq_true,
            Bool.true_and] at hpre
          have h2 := h.2 (by simpa using hpre)
          rw [hnext, if_pos rfl, h2]
          simp only [BufferedIterator.mk.injEq, List.length_cons,
            List.drop_succ_cons, List.map_map]
          refine ⟨trivial, by simp, ?_⟩
          refine List.map_congr_left fun a _ => ?_
          simp
      · refine ⟨?_, fun hpre => ?_⟩
        · simp [hnext, hx, List.isPrefixOf, Ne.symm hx]
        · simp [List.isPrefixOf, Ne.symm hx] at hpre

/-- C7: for every pattern, input and fuel budget, Pattern::test equals the
boolean first component of Pattern::run; the source defines test as
run(input).0 and the embedding mirrors that definition exactly. -/
theorem test_eq_run_fst (fuel : Nat) (p : Pattern) (s : List Char) :
    Pattern.test fuel p s = (Pattern.run fuel p s).map (fun r => r.1) := rfl

/-- C5 counterexample: on the empty input string the engine returns false
for the caret-dollar pattern and for the a-question-mark pattern, although
the claim says both should match. -/
theorem empty_input_counterexample :
    checkMatch 50 "^$" "" = some false ∧ checkMatch 50 "a?" "" = some false :=
  ⟨rfl, rfl⟩

/-- C5 amended: Pattern::run (and hence Pattern::test) returns false on
the empty input for every pattern and every fuel budget, because the
search loop tries no start position when no character remains; in
particular the caret-dollar, a-question-mark and caret-a patterns all
yield false on the empty input. -/
theorem empty_input_always_false (fuel : Nat) (p : Pattern) :
    Pattern.run fuel p [] = .ok (false, [], []) ∧
    checkMatch fuel "^$" "" = some false ∧
    checkMatch fuel "a?" "" = some false ∧
    checkMatch fuel "^a" "" = some false :=
  ⟨rfl, rfl, rfl, rfl⟩

/-- C1: a back-reference node with index k in range of the accumulated
capture list (whose entry k holds the text of the k-th opening-parenthesis
group once that group has closed, entry 0 being the placeholder of the
enclosing group) succeeds exactly when the captured text is a prefix of
the remaining cursor characters, consuming exactly that text (an empty
capture consumes nothing); an out-of-range index fails consuming nothing;
no resumption handle is ever returned.  The two concrete runs tie the
entry indexing to surface back-reference syntax. -/
theorem backreference_correct (fuel : Nat) (input : BufferedIterator)
    (caps : List (List Char)) (k : Nat) (bt : Option BacktrackInfo) :
    (k < caps.length →
      Matcher.test (fuel + 1) (.Backreference k) input caps bt =
        .ok ((caps.getD k []).isPrefixOf (input.remaining.map Prod.snd), [], none,
          (backrefConsume (caps.getD k []) input).2)) ∧
    ((caps.getD k []).isPrefixOf (input.remaining.map Prod.snd) = true →
      (backrefConsume (caps.getD k []) input).2 =
        ⟨input.remaining.drop (caps.getD k []).length,
          input.buffer ++ caps.getD k [],
          input.subbuffers.map (· ++ caps.getD k [])⟩) ∧
    (caps.length ≤ k →
      Matcher.test (fuel + 1) (.Backreference k) input caps bt =
        .ok (false, [], none, input)) ∧
    checkMatch 300 "(\\w+) and \\1" "cat and cat" = some true ∧
    checkMatch 300 "(\\w+) and \\1" "cat and dog" = some false := by
  have hunf : Matcher.test (fuel + 1) (.Backreference k) input caps bt =
      if k ≥ caps.length then .ok (false, [], none, input)
      else .ok ((backrefConsume (caps.getD k []) input).1, [], none,
        (backrefConsume (caps.getD k []) input).2) := rfl
  refine ⟨fun hk => ?_, fun hpre => (backrefConsume_spec _ input).2 hpre,
    fun hk => ?_, by decide, by decide⟩
  · rw [hunf, if_neg (by omega), (backrefConsume_spec _ input).1]
  · rw [hunf, if_pos hk]

/-- Witness for the back-reference theorem: a concrete in-range match, the
consumed cursor, and a concrete out-of-range failure. -/
theorem backreference_correct_witness :
    Matcher.test 5 (.Backreference 1) ⟨[(0, 'a'), (1, 'b'), (2, 'c')], [], [[]]⟩
        [[], ['a', 'b']] none =
      .ok (true, [], none, ⟨[(2, 'c')], ['a', 'b'], [['a', 'b']]⟩) ∧
    Matcher.test 5 (.Backreference 7) ⟨[(0, 'a')], [], []⟩ [[], ['a']] none =
      .ok (false, [], none, ⟨[(0, 'a')], [], []⟩) := by
  have h := backreference_correct 4 ⟨[(0, 'a'), (1, 'b'), (2, 'c')], [], [[]]⟩
    [[], ['a', 'b']] 1 none
  have h2 := backreference_correct 4 ⟨[(0, 'a')], [], []⟩ [[], ['a']] 7 none
  refine ⟨?_, h2.2.2.1 (by decide)⟩
  rw [h.1 (by decide), h.2.1 (by decide)]
  rfl

/-- C2 counterexample: the claim says a back-reference evaluated inside
its own not-yet-closed defining group fails the match at that point, so a
pattern whose only alternative contains such a back-reference could never
match; yet the pattern open-paren a backslash-one close-paren matches the
input a. -/
theorem self_backreference_counterexample :
    checkMatch 100 "(a\\1)" "a" = some true := by decide

/-- C2 amended: a back-reference evaluated inside its own not-yet-closed
defining group resolves to that group's still-empty placeholder entry in
the capture list, so it succeeds consuming zero characters (and the
surrounding match can go on to succeed); only an index beyond the
accumulated capture entries fails.  Concretely, a back-reference to an
empty capture entry succeeds leaving the cursor untouched, the
self-referencing group pattern matches, the character after it still
matches, and a reference past the accumulated entries fails the match. -/
theorem self_backreference_empty_match (fuel : Nat) (input : BufferedIterator)
    (caps : List (List Char)) (k : Nat) (bt : Option BacktrackInfo)
    (hk : k < caps.length) (hempty : caps.getD k [] = []) :
    Matcher.test (fuel + 1) (.Backreference k) input caps bt =
      .ok (true, [], none, input) ∧
    checkMatch 100 "(a\\1)" "a" = some true ∧
    checkMatch 100 "(a\\1)b" "ab" = some true ∧
    checkMatch 100 "(a\\2)b" "ab" = some false := by
  have hunf : Matcher.test (fuel + 1) (.Backreference k) input caps bt =
      if k ≥ caps.length then .ok (false, [], none, input)
      else .ok ((backrefConsume (caps.getD k []) input).1, [], none,
        (backrefConsume (caps.getD k []) input).2) := rfl
  refine ⟨?_, by decide, by decide, by decide⟩
  rw [hunf, if_neg (by omega), hempty]
  rfl

/-- Witness for the empty-capture back-reference theorem at a concrete
capture list holding the placeholder of the group being evaluated. -/
theorem self_backreference_empty_match_witness :
    Matcher.test 3 (.Backreference 1) ⟨[(0, 'x')], [], []⟩ [['a'], []] none =
      .ok (true, [], none, ⟨[(0, 'x')], [], []⟩) :=
  (self_backreference_empty_match 2 ⟨[(0, 'x')], [], []⟩ [['a'], []] 1 none
    (by decide) (by decide)).1

/-- C8 counterexample: the pattern a bar b compiles successfully and its
top-level matcher sequence contains an Alternative node, contradicting the
claim that the top-level sequence contains no Alt. -/
theorem top_level_alt_counterexample :
    Pattern.new "a|b".data =
      .ok ⟨[.SingleCharacter (.Literal 'a'), .Alternative,
        .SingleCharacter (.Literal 'b')]⟩ ∧
    Pattern.topLevelHasAlt (Pattern.new "a|b".data) = true :=
  ⟨rfl, rfl⟩

/-- C10: the search loop of Pattern::run only starts a match attempt at
positions where at least one character remains, so the bare end-anchor
pattern, which can only succeed with the cursor at end of input, tests
false on every input (the dollar pattern compiles to exactly the
EndOfString matcher). -/
theorem dollar_never_matches (fuel : Nat) (s : List Char) (h : 5 ≤ fuel) :
    Pattern.new "$".data = .ok ⟨[.EndOfString]⟩ ∧
    Pattern.test fuel ⟨[.EndOfString]⟩ s = .ok false := by
  obtain ⟨f, rfl⟩ : ∃ f, fuel = f + 5 := ⟨fuel - 5, by omega⟩
  refine ⟨rfl, ?_⟩
  have hsec : ∀ (l : List (Nat × Char)) (x : Nat × Char) (buffer : List Char),
      Pattern.testSection (f + 5) ⟨[.EndOfString]⟩ ⟨x :: l, buffer, []⟩ =
        .ok (false, [], ⟨x :: l, buffer, []⟩) := fun _ _ _ => rfl
  have key : ∀ (l : List (Nat × Char)) (buffer : List Char),
      Pattern.runLoop (f + 5) ⟨[.EndOfString]⟩ l buffer = .ok (false, [], []) := by
    intro l
    induction l with
    | nil => intro buffer; rfl
    | cons x xs ih =>
      intro buffer
      simp only [Pattern.runLoop, hsec]
      exact ih _
  simp [Pattern.test, Pattern.run, key, Out.map]

/-- Witness for the dollar theorem at a concrete fuel and input. -/
theorem dollar_never_matches_witness :
    Pattern.new "$".data = .ok ⟨[.EndOfString]⟩ ∧
    Pattern.test 9 ⟨[.EndOfString]⟩ "ab".data = .ok false :=
  dollar_never_matches 9 "ab".data (by decide)

theorem maybeRepeat_wf (m : Matcher) (l : List Char)
    (hshape : m.baseShape = true) (hwf : Matcher.wf m = true) :
    Matcher.wf (Matcher.maybeRepeat m l).1 = true := by
  unfold Matcher.maybeRepeat
  split
  · simp [Matcher.wf, hshape, hwf]
  · simp [Matcher.wf, hshape, hwf]
  · simp [Matcher.wf, hshape, hwf]
  · exact hwf

theorem wfList_append (l1 l2 : List Matcher) :
    Matcher.wfList (l1 ++ l2) = (Matcher.wfList l1 && Matcher.wfList l2) := by
  induction l1 with
  | nil => simp [Matcher.wfList]
  | cons m rest ih => simp [Matcher.wfList, ih, Bool.and_assoc]

theorem newChar_wf (l : List Char) (m : Matcher) (r : List Char)
    (h : Matcher.newChar l = some (.ok (m, r))) : Matcher.wf m = true := by
  unfold Matcher.newChar at h
  cases hs : SingleCharacterMatcher.new l with
  | error e => rw [hs] at h; simp at h
  | ok pr =>
    obtain ⟨scm, r'⟩ := pr
    rw [hs] at h
    simp only [Option.some.injEq, Except.ok.injEq] at h
    have hm : m = (Matcher.maybeRepeat (.SingleCharacter scm) r').1 := by rw [h]
    rw [hm]
    exact maybeRepeat_wf _ _ rfl rfl

theorem parser_wf : ∀ fuel : Nat,
    (∀ l m r, Matcher.new fuel l = some (.ok (m, r)) → Matcher.wf m = true) ∧
    (∀ l acc ms r, Matcher.wfList acc = true →
      Matcher.groupLoop fuel l acc = some (.ok (ms, r)) →
      Matcher.wfList ms = true) := by
  intro fuel
  induction fuel with
  | zero =>
    refine ⟨fun l m r h => by simp [Matcher.new] at h,
      fun l acc ms r _ h => by simp [Matcher.groupLoop] at h⟩
  | succ fuel ih =>
    constructor
    · intro l m r h
      cases l with
      | nil => simp [Matcher.new] at h
      | cons p rest =>
        rw [Matcher.new_cons] at h
        split_ifs at h with h1 h2 h3 h4 h5
        · simp only [Option.some.injEq, Except.ok.injEq, Prod.mk.injEq] at h
          obtain ⟨rfl, rfl⟩ := h; rfl
        · simp only [Option.some.injEq, Except.ok.injEq, Prod.mk.injEq] at h
          obtain ⟨rfl, rfl⟩ := h; rfl
        · cases hg : Matcher.groupLoop fuel rest [] with
          | none => rw [hg] at h; simp at h
          | some e =>
            rw [hg] at h
            cases e with
            | error e => simp at h
            | ok pr =>
              obtain ⟨ms, r'⟩ := pr
              simp only [Option.some.injEq, Except.ok.injEq] at h
              have hms := ih.2 rest [] ms r' rfl hg
              have hm : m = (Matcher.maybeRepeat (.CaptureGroup ms) r').1 := by
                rw [h]
              rw [hm]
              exact maybeRepeat_wf (.CaptureGroup ms) r' rfl
                (by simpa [Matcher.wf] using hms)
        · simp only [Option.some.injEq, Except.ok.injEq, Prod.mk.injEq] at h
          obtain ⟨rfl, rfl⟩ := h; rfl
        · cases rest with
          | nil => exact newChar_wf _ _ _ h
          | cons d rest' =>
            split at h
            next d2 rest2 heq =>
              obtain ⟨rfl, rfl⟩ := List.cons.injEq .. |>.mp heq |>.imp id id
              split_ifs at h with hd
              · simp only [Option.some.injEq, Except.ok.injEq, Prod.mk.injEq] at h
                obtain ⟨rfl, rfl⟩ := h; rfl
              · exact newChar_wf _ _ _ h
            next heq => exact absurd heq (by simp)
        · exact newChar_wf _ _ _ h
    · intro l acc ms r hacc h
      cases l with
      | nil => simp [Matcher.groupLoop] at h
      | cons p rest =>
        rw [Matcher.groupLoop] at h
        split_ifs at h with hp
        · simp only [Option.some.injEq, Except.ok.injEq, Prod.mk.injEq] at h
          obtain ⟨rfl, rfl⟩ := h; exact hacc
        · cases hm : Matcher.new fuel (p :: rest) with
          | none => rw [hm] at h; simp at h
          | some e =>
            rw [hm] at h
            cases e with
            | error e => simp at h
            | ok pr =>
              obtain ⟨m', r'⟩ := pr
              have hwfm := ih.1 _ _ _ hm
              exact ih.2 _ _ _ _
                (by simp [wfList_append, hacc, Matcher.wfList, hwfm]) h

theorem newLoop_wf : ∀ fuel l acc ms, Matcher.wfList acc = true →
    Pattern.newLoop fuel l acc = some (.ok ms) → Matcher.wfList ms = true := by
  intro fuel
  induction fuel with
  | zero => intro l acc ms _ h; simp [Pattern.newLoop] at h
  | succ fuel ih =>
    intro l acc ms hacc h
    cases l with
    | nil =>
      simp only [Pattern.newLoop, Option.some.injEq, Except.ok.injEq] at h
      rw [← h]; exact hacc
    | cons p rest =>
      rw [Pattern.newLoop] at h
      cases hm : Matcher.new fuel (p :: rest) with
      | none => rw [hm] at h; simp at h
      | some e =>
        rw [hm] at h
        cases e with
        | error e => simp at h
        | ok pr =>
          obtain ⟨m', r'⟩ := pr
          have hwfm := (parser_wf fuel).1 _ _ _ hm
          exact ih _ _ _ (by simp [wfList_append, hacc, Matcher.wfList, hwfm]) h

theorem pattern_new_wf (s : List Char) (p : Pattern) (h : Pattern.new s = .ok p) :
    Matcher.wfList p.matchers = true := by
  unfold Pattern.new at h
  cases hm : Pattern.newLoop (2 * s.length + 1) s [] with
  | none => rw [hm] at h; simp at h
  | some e =>
    rw [hm] at h
    cases e with
    | error e => simp at h
    | ok ms =>
      simp only [Except.ok.injEq] at h
      rw [← h]
      exact newLoop_wf (2 * s.length + 1) s [] ms (by rfl) hm

/-- C8 amended: in every successfully parsed pattern, an Alt node can
appear only as a direct element of a Group body or of the top-level
matcher sequence, never inside a Repeat: the parser only wraps a
single-character matcher or a capture group in Repeat (the well-formedness
predicate proved here), and those are the only two node kinds with
children.  The top-level sequence itself, contrary to the claim, may
contain Alt, as the compilation of the pattern a bar b shows. -/
theorem alt_only_under_group_or_top (s : List Char) (p : Pattern)
    (h : Pattern.new s = .ok p) :
    Matcher.wfList p.matchers = true ∧
    Pattern.topLevelHasAlt (Pattern.new "a|b".data) = true :=
  ⟨pattern_new_wf s p h, rfl⟩

/-- Witness for the amended Alt-placement theorem on the counterexample
pattern itself. -/
theorem alt_only_under_group_or_top_witness :
    Matcher.wfList
      ([.SingleCharacter (.Literal 'a'), .Alternative,
        .SingleCharacter (.Literal 'b')] : List Matcher) = true ∧
    Pattern.topLevelHasAlt (Pattern.new "a|b".data) = true :=
  alt_only_under_group_or_top "a|b".data
    ⟨[.SingleCharacter (.Literal 'a'), .Alternative,
      .SingleCharacter (.Literal 'b')]⟩ rfl

theorem enumFrom_length : ∀ (n : Nat) (s : List Char),
    (enumFrom n s).length = s.length := by
  intro n s
  induction s generalizing n with
  | nil => rfl
  | cons c cs ih => simp [enumFrom, ih]

theorem runLoop_true_iff (fuel : Nat) (p : Pattern) :
    ∀ (l : List (Nat × Char)) (buffer : List Char),
      (∀ n, n < l.length →
        sectionVerdict fuel p ⟨l.drop n, buffer ++ (l.take n).map Prod.snd, []⟩ ≠ none) →
      (((Pattern.runLoop fuel p l buffer).map (fun v => v.1) = Out.ok true) ↔
        ∃ n, n < l.length ∧
          sectionVerdict fuel p
            ⟨l.drop n, buffer ++ (l.take n).map Prod.snd, []⟩ = some true) := by
  intro l
  induction l with
  | nil =>
    intro buffer _
    constructor
    · intro h; simp [Pattern.runLoop, Out.map] at h
    · rintro ⟨n, hn, _⟩; simp at hn
  | cons x xs ih =>
    intro buffer hdiv
    have h0 := hdiv 0 (by simp)
    simp only [List.drop_zero, List.take_zero, List.map_nil, List.append_nil] at h0
    cases hsec : Pattern.testSection fuel p ⟨x :: xs, buffer, []⟩ with
    | fuelOut => exact absurd (by simp [sectionVerdict, hsec]) h0
    | panicked => exact absurd (by simp [sectionVerdict, hsec]) h0
    | ok v =>
      obtain ⟨b, caps, it2⟩ := v
      cases b with
      | true =>
        constructor
        · intro _
          exact ⟨0, by simp, by simp [sectionVerdict, hsec]⟩
        · intro _
          simp [Pattern.runLoop, hsec, Out.map]
      | false =>
        have hstep : Pattern.runLoop fuel p (x :: xs) buffer =
            Pattern.runLoop fuel p xs (buffer ++ [x.2]) := by
          simp [Pattern.runLoop, hsec]
        have hdiv2 : ∀ n, n < xs.length →
            sectionVerdict fuel p
              ⟨xs.drop n, (buffer ++ [x.2]) ++ (xs.take n).map Prod.snd, []⟩ ≠ none := by
          intro n hn
          have := hdiv (n + 1) (by simpa using Nat.succ_lt_succ hn)
          simpa [List.append_assoc] using this
        rw [hstep]
        rw [ih (buffer ++ [x.2]) hdiv2]
        constructor
        · rintro ⟨n, hn, hv⟩
          refine ⟨n + 1, by simpa using Nat.succ_lt_succ hn, ?_⟩
          simpa [List.append_assoc] using hv
        · rintro ⟨n, hn, hv⟩
          cases n with
          | zero =>
            simp only [List.drop_zero, List.take_zero, List.map_nil,
              List.append_nil, sectionVerdict, hsec] at hv
            cases hv
          | succ n =>
            refine ⟨n, by simp only [List.length_cons] at hn; omega, ?_⟩
            simpa [List.append_assoc] using hv

/-- C4: the unanchored search of Pattern::run (and hence Pattern::test)
succeeds exactly when the implicit top-level group succeeds at some start
position strictly inside the input, i.e. a position in 0..len(s); the run
loop tries position 0 first and advances one character at a time.  Stated
for any pattern (anchored ones included, whose matchers simply see the
position); the fuel-definedness hypothesis says no tried position runs out
of fuel or panics. -/
theorem run_unanchored (fuel : Nat) (p : Pattern) (s : List Char)
    (hdef : ∀ n, n < s.length → sectionVerdict fuel p (startIter s n) ≠ none) :
    (Pattern.test fuel p s = .ok true ↔
      ∃ n, n < s.length ∧ sectionVerdict fuel p (startIter s n) = some true) := by
  have key := runLoop_true_iff fuel p (enumFrom 0 s) []
  simp only [List.nil_append, enumFrom_length] at key
  exact key (fun n hn => by simpa [startIter] using hdef n hn)

/-- Witness for the unanchored-search theorem: the single-character
pattern b on input ab matches, exactly at start position 1. -/
theorem run_unanchored_witness :
    (Pattern.test 50 ⟨[.SingleCharacter (.Literal 'b')]⟩ "ab".data = .ok true ↔
      ∃ n, n < "ab".data.length ∧
        sectionVerdict 50 ⟨[.SingleCharacter (.Literal 'b')]⟩
          (startIter "ab".data n) = some true) :=
  run_unanchored 50 ⟨[.SingleCharacter (.Literal 'b')]⟩ "ab".data (by decide)

theorem scmNew_cons (c : Char) (rest : List Char) :
    SingleCharacterMatcher.new (c :: rest) =
      (if c = '\\' then
         match rest with
         | [] => .error .EOF
         | d :: rest' =>
           match SingleCharacterMatcher.newClass d with
           | .error e => .error e
           | .ok o => .ok (o, rest')
       else if c = '[' then
         if rest.head? = some '^' then
           match SingleCharacterMatcher.newGroupLoop rest.tail [] with
           | .error e => .error e
           | .ok (opts, r) => .ok (.NegativeGroup opts, r)
         else
           match SingleCharacterMatcher.newGroupLoop rest [] with
           | .error e => .error e
           | .ok (opts, r) => .ok (.Group opts, r)
       else if c = '.' then .ok (.Any, rest)
       else .ok (.Literal c, rest)) := rfl

theorem maybeRepeat_consumes (m : Matcher) (l : List Char) :
    (Matcher.maybeRepeat m l).2.length ≤ l.length := by
  unfold Matcher.maybeRepeat
  split <;> simp

theorem plainChars_tail (l : List Char) (h : plainChars l) : plainChars l.tail := by
  obtain ⟨h1, h2, h3⟩ := h
  match l with
  | [] => exact ⟨h1, h2, h3⟩
  | p :: rest =>
    refine ⟨fun hc => h1 ?_, fun hc => h2 ?_, fun hc => h3 ?_⟩ <;>
      simp only [List.tail_cons] at hc <;> exact List.mem_cons_of_mem _ hc

theorem maybeRepeat_rest (m : Matcher) (l : List Char) :
    (Matcher.maybeRepeat m l).2 = l ∨ (Matcher.maybeRepeat m l).2 = l.tail := by
  unfold Matcher.maybeRepeat
  split <;> simp

theorem plain_new_ok (fuel : Nat) (p : Char) (rest : List Char)
    (hfa : 2 * (p :: rest).length ≤ fuel) (hf1 : 1 ≤ fuel)
    (hpl : plainChars (p :: rest)) :
    ∃ m r, Matcher.new fuel (p :: rest) = some (.ok (m, r)) ∧
      r.length < (p :: rest).length ∧ plainChars r := by
  obtain ⟨f, rfl⟩ : ∃ f, fuel = f + 1 := ⟨fuel - 1, by omega⟩
  have hp1 : p ≠ '\\' := fun hc => hpl.1 (hc ▸ List.mem_cons_self p rest)
  have hp2 : p ≠ '[' := fun hc => hpl.2.1 (hc ▸ List.mem_cons_self p rest)
  have hp3 : p ≠ '(' := fun hc => hpl.2.2 (hc ▸ List.mem_cons_self p rest)
  have htail := plainChars_tail _ hpl
  simp only [List.tail_cons] at htail
  rw [Matcher.new_cons]
  split_ifs with h1 h2 h3
  · exact ⟨_, rest, rfl, by simp, htail⟩
  · exact ⟨_, rest, rfl, by simp, htail⟩
  · exact ⟨_, rest, rfl, by simp, htail⟩
  · refine ⟨(Matcher.maybeRepeat
      (.SingleCharacter (if p = '.' then .Any else .Literal p)) rest).1,
      (Matcher.maybeRepeat
        (.SingleCharacter (if p = '.' then .Any else .Literal p)) rest).2,
      ?_, ?_, ?_⟩
    · unfold Matcher.newChar
      rw [scmNew_cons, if_neg hp1, if_neg hp2]
      by_cases hdot : p = '.' <;> simp [hdot]
    · have := maybeRepeat_consumes
        (.SingleCharacter (if p = '.' then .Any else .Literal p)) rest
      simp only [List.length_cons]
      omega
    · rcases maybeRepeat_rest
        (.SingleCharacter (if p = '.' then .Any else .Literal p)) rest with h | h
      · rw [h]; exact htail
      · rw [h]; exact plainChars_tail _ htail

theorem plain_newLoop_ok : ∀ fuel (l : List Char) (acc : List Matcher),
    2 * l.length + 1 ≤ fuel → plainChars l →
    ∃ ms, Pattern.newLoop fuel l acc = some (.ok ms) := by
  intro fuel
  induction fuel with
  | zero => intro l acc h; omega
  | succ fuel ih =>
    intro l acc hl hpl
    match l with
    | [] => exact ⟨acc, rfl⟩
    | p :: rest =>
      obtain ⟨m, r, hm, hlen, hplr⟩ := plain_new_ok fuel p rest
        (by simp only [List.length_cons] at hl ⊢; omega)
        (by simp only [List.length_cons] at hl; omega) hpl
      rw [Pattern.newLoop_cons, hm]
      exact ih r (acc ++ [m])
        (by simp only [List.length_cons] at hl hlen ⊢; omega) hplr

theorem optionLoop_range_insensitive : ∀ (fuel : Nat)
    (caps : List (List Char)) (input : BufferedIterator)
    (options : List (List Matcher)) (oid np : Nat),
    Matcher.optionLoop fuel caps (some (.Range np)) input options oid =
      Matcher.optionLoop fuel caps none input options oid := by
  intro fuel
  induction fuel with
  | zero => intro caps input options oid np; rfl
  | succ fuel ih =>
    intro caps input options oid np
    cases options with
    | nil => rfl
    | cons option rest =>
      have h1 : Matcher.optionLoop (fuel + 1) caps (some (.Range np)) input
          (option :: rest) oid =
          (match Matcher.matchLoop fuel caps option [] none input.subdivide []
              (caps ++ [[]]) with
           | .fuelOut => .fuelOut
           | .panicked => .panicked
           | .ok none =>
             Matcher.optionLoop fuel caps (some (.Range np)) input rest (oid + 1)
           | .ok (some (b, oc, st)) =>
             .ok (true, oc, some (.Group oid st), b)) := rfl
      have h2 : Matcher.optionLoop (fuel + 1) caps none input
          (option :: rest) oid =
          (match Matcher.matchLoop fuel caps option [] none input.subdivide []
              (caps ++ [[]]) with
           | .fuelOut => .fuelOut
           | .panicked => .panicked
           | .ok none => Matcher.optionLoop fuel caps none input rest (oid + 1)
           | .ok (some (b, oc, st)) =>
             .ok (true, oc, some (.Group oid st), b)) := rfl
      rw [h1, h2]
      cases hml : Matcher.matchLoop fuel caps option [] none input.subdivide []
          (caps ++ [[]]) with
      | fuelOut => rfl
      | panicked => rfl
      | ok v =>
        cases v with
        | none => exact ih caps input rest (oid + 1) np
        | some w => rfl

theorem test_range_insensitive (fuel : Nat) (m : Matcher)
    (input : BufferedIterator) (caps : List (List Char)) (np : Nat)
    (hshape : m.baseShape = true) :
    Matcher.test fuel m input caps (some (.Range np)) =
      Matcher.test fuel m input caps none := by
  cases fuel with
  | zero => rfl
  | succ fuel =>
    cases m with
    | SingleCharacter c => rfl
    | CaptureGroup inner =>
      show Matcher.testGroup fuel inner input caps (some (.Range np)) =
        Matcher.testGroup fuel inner input caps none
      cases fuel with
      | zero => rfl
      | succ fuel =>
        exact optionLoop_range_insensitive fuel caps input (splitOnAlt inner) 0 np
    | Repeat inner mn mx => simp [Matcher.baseShape] at hshape
    | Backreference k => simp [Matcher.baseShape] at hshape
    | StartOfString => simp [Matcher.baseShape] at hshape
    | EndOfString => simp [Matcher.baseShape] at hshape
    | Alternative => simp [Matcher.baseShape] at hshape

theorem repeatLoop_succ (fuel : Nat) (inner : Matcher)
    (caps : List (List Char)) (bt : Option BacktrackInfo) (mx : Option Nat)
    (count : Nat) (input : BufferedIterator) :
    Matcher.repeatLoop (fuel + 1) inner caps bt mx count input =
      (match Matcher.test fuel inner input caps bt with
       | .fuelOut => .fuelOut
       | .panicked => .panicked
       | .ok (matched, _, _, inputClone) =>
         if ! matched then .ok (count, input)
         else
           let step : Out (Nat × BufferedIterator) :=
             match mx with
             | some mxv =>
               if count + 1 = mxv then .ok (count + 1, inputClone)
               else Matcher.repeatLoop fuel inner caps bt mx (count + 1) inputClone
             | none => Matcher.repeatLoop fuel inner caps bt mx (count + 1) inputClone
           match bt with
           | some (.Range consumed) =>
             if consumed = 0 then .panicked
             else if count ≥ consumed - 1 then .ok (count, input)
             else step
           | _ => step) := rfl

theorem repeatLoop_count_ge : ∀ (fuel : Nat) (inner : Matcher)
    (caps : List (List Char)) (bt : Option BacktrackInfo) (mx : Option Nat)
    (count : Nat) (input : BufferedIterator) (n : Nat) (i1 : BufferedIterator),
    Matcher.repeatLoop fuel inner caps bt mx count input = .ok (n, i1) →
    count ≤ n := by
  intro fuel
  induction fuel with
  | zero => intro inner caps bt mx count input n i1 h; simp [Matcher.repeatLoop] at h
  | succ fuel ih =>
    intro inner caps bt mx count input n i1 h
    rw [repeatLoop_succ] at h
    cases htest : Matcher.test fuel inner input caps bt with
    | fuelOut => rw [htest] at h; simp at h
    | panicked => rw [htest] at h; simp at h
    | ok v =>
      obtain ⟨matched, c2, b2, inputClone⟩ := v
      rw [htest] at h
      have hstep : ∀ hs : (match mx with
          | some mxv =>
            if count + 1 = mxv then
              (.ok (count + 1, inputClone) : Out (Nat × BufferedIterator))
            else Matcher.repeatLoop fuel inner caps bt mx (count + 1) inputClone
          | none => Matcher.repeatLoop fuel inner caps bt mx (count + 1) inputClone)
            = .ok (n, i1), count ≤ n := by
        intro hs
        cases mx with
        | none =>
          have hs' : Matcher.repeatLoop fuel inner caps bt none
              (count + 1) inputClone = .ok (n, i1) := hs
          have := ih _ _ _ _ _ _ _ _ hs'; omega
        | some mxv =>
          have hs' : (if count + 1 = mxv then
              (.ok (count + 1, inputClone) : Out (Nat × BufferedIterator))
              else Matcher.repeatLoop fuel inner caps bt (some mxv)
                (count + 1) inputClone) = .ok (n, i1) := hs
          split_ifs at hs' with hc
          · simp only [Out.ok.injEq, Prod.mk.injEq] at hs'
            omega
          · have := ih _ _ _ _ _ _ _ _ hs'; omega
      by_cases hmat : matched
      · subst hmat
        simp only [Bool.not_true, Bool.false_eq_true, if_false] at h
        cases bt with
        | none => exact hstep h
        | some b =>
          cases b with
          | Range consumed =>
            cases mx with
            | none =>
              have h' : (if consumed = 0 then
                  (Out.panicked : Out (Nat × BufferedIterator))
                  else if count ≥ consumed - 1 then .ok (count, input)
                  else Matcher.repeatLoop fuel inner caps
                    (some (.Range consumed)) none (count + 1) inputClone) =
                  .ok (n, i1) := h
              split_ifs at h' with hz hcap
              · simp only [Out.ok.injEq, Prod.mk.injEq] at h'; omega
              · have := ih _ _ _ _ _ _ _ _ h'; omega
            | some mxv =>
              have h' : (if consumed = 0 then
                  (Out.panicked : Out (Nat × BufferedIterator))
                  else if count ≥ consumed - 1 then .ok (count, input)
                  else if count + 1 = mxv then .ok (count + 1, inputClone)
                  else Matcher.repeatLoop fuel inner caps
                    (some (.Range consumed)) (some mxv) (count + 1) inputClone) =
                  .ok (n, i1) := h
              split_ifs at h' with hz hcap hc
              · simp only [Out.ok.injEq, Prod.mk.injEq] at h'; omega
              · simp only [Out.ok.injEq, Prod.mk.injEq] at h'; omega
              · have := ih _ _ _ _ _ _ _ _ h'; omega
          | Group id st => exact hstep h
          | noInfo => exact hstep h
      · simp only [Bool.not_eq_true] at hmat
        subst hmat
        have h' : Out.ok (count, input) = Out.ok (n, i1) := h
        simp only [Out.ok.injEq, Prod.mk.injEq] at h'
        omega

theorem repeatLoop_max_le : ∀ (fuel : Nat) (inner : Matcher)
    (caps : List (List Char)) (bt : Option BacktrackInfo) (mxv count : Nat)
    (input : BufferedIterator) (n : Nat) (i1 : BufferedIterator),
    count < mxv →
    Matcher.repeatLoop fuel inner caps bt (some mxv) count input = .ok (n, i1) →
    n ≤ mxv := by
  intro fuel
  induction fuel with
  | zero =>
    intro inner caps bt mxv count input n i1 hlt h
    simp [Matcher.repeatLoop] at h
  | succ fuel ih =>
    intro inner caps bt mxv count input n i1 hlt h
    rw [repeatLoop_succ] at h
    cases htest : Matcher.test fuel inner input caps bt with
    | fuelOut => rw [htest] at h; simp at h
    | panicked => rw [htest] at h; simp at h
    | ok v =>
      obtain ⟨matched, c2, b2, inputClone⟩ := v
      rw [htest] at h
      have hstep : ∀ hs : (if count + 1 = mxv then
          (.ok (count + 1, inputClone) : Out (Nat × BufferedIterator))
          else Matcher.repeatLoop fuel inner caps bt (some mxv)
            (count + 1) inputClone) = .ok (n, i1), n ≤ mxv := by
        intro hs
        split_ifs at hs with hc
        · simp only [Out.ok.injEq, Prod.mk.injEq] at hs
          omega
        · exact ih _ _ _ _ _ _ _ _ (by omega) hs
      by_cases hmat : matched
      · subst hmat
        simp only [Bool.not_true, Bool.false_eq_true, if_false] at h
        cases bt with
        | none => exact hstep h
        | some b =>
          cases b with
          | Range consumed =>
            have h' : (if consumed = 0 then
                (Out.panicked : Out (Nat × BufferedIterator))
                else if count ≥ consumed - 1 then .ok (count, input)
                else if count + 1 = mxv then .ok (count + 1, inputClone)
                else Matcher.repeatLoop fuel inner caps
                  (some (.Range consumed)) (some mxv) (count + 1) inputClone) =
                .ok (n, i1) := h
            split_ifs at h' with hz hcap hc
            · simp only [Out.ok.injEq, Prod.mk.injEq] at h'; omega
            · simp only [Out.ok.injEq, Prod.mk.injEq] at h'; omega
            · exact ih _ _ _ _ _ _ _ _ (by omega) h'
          | Group id st => exact hstep h
          | noInfo => exact hstep h
      · simp only [Bool.not_eq_true] at hmat
        subst hmat
        have h' : Out.ok (count, input) = Out.ok (n, i1) := h
        simp only [Out.ok.injEq, Prod.mk.injEq] at h'
        omega

theorem repeatLoop_capped (inner : Matcher) (caps : List (List Char))
    (mx : Option Nat) (np : Nat) (hnp : 0 < np)
    (hins : ∀ (fuel : Nat) (input : BufferedIterator),
      Matcher.test fuel inner input caps (some (.Range np)) =
        Matcher.test fuel inner input caps none) :
    ∀ (fuel count : Nat) (input : BufferedIterator) (n : Nat)
      (i1 : BufferedIterator),
      count ≤ np - 1 →
      Matcher.repeatLoop fuel inner caps none mx count input = .ok (n, i1) →
      ∃ i2, Matcher.repeatLoop fuel inner caps (some (.Range np)) mx count
        input = .ok (min n (np - 1), i2) := by
  intro fuel
  induction fuel with
  | zero =>
    intro count input n i1 hc h
    simp [Matcher.repeatLoop] at h
  | succ fuel ih =>
    intro count input n i1 hc h
    rw [repeatLoop_succ] at h
    rw [repeatLoop_succ, hins fuel input]
    cases htest : Matcher.test fuel inner input caps none with
    | fuelOut => rw [htest] at h; simp at h
    | panicked => rw [htest] at h; simp at h
    | ok v =>
      obtain ⟨matched, c2, b2, inputClone⟩ := v
      rw [htest] at h
      by_cases hmat : matched
      · subst hmat
        simp only [Bool.not_true, Bool.false_eq_true, if_false] at h
        cases mx with
        | none =>
          have h1 : Matcher.repeatLoop fuel inner caps none none
              (count + 1) inputClone = .ok (n, i1) := h
          show ∃ i2, (if np = 0 then
              (Out.panicked : Out (Nat × BufferedIterator))
              else if count ≥ np - 1 then .ok (count, input)
              else Matcher.repeatLoop fuel inner caps (some (.Range np)) none
                (count + 1) inputClone) = .ok (min n (np - 1), i2)
          rw [if_neg (by omega)]
          by_cases hcap : count ≥ np - 1
          · rw [if_pos hcap]
            have hn1 := repeatLoop_count_ge fuel inner caps none none
              (count + 1) inputClone n i1 h1
            exact ⟨input, by
              have : min n (np - 1) = count := by omega
              rw [this]⟩
          · rw [if_neg hcap]
            exact ih (count + 1) inputClone n i1 (by omega) h1
        | some mxv =>
          have h1 : (if count + 1 = mxv then
              (.ok (count + 1, inputClone) : Out (Nat × BufferedIterator))
              else Matcher.repeatLoop fuel inner caps none (some mxv)
                (count + 1) inputClone) = .ok (n, i1) := h
          show ∃ i2, (if np = 0 then
              (Out.panicked : Out (Nat × BufferedIterator))
              else if count ≥ np - 1 then .ok (count, input)
              else if count + 1 = mxv then .ok (count + 1, inputClone)
              else Matcher.repeatLoop fuel inner caps (some (.Range np))
                (some mxv) (count + 1) inputClone) = .ok (min n (np - 1), i2)
          rw [if_neg (by omega)]
          by_cases hcap : count ≥ np - 1
          · rw [if_pos hcap]
            have hn1 : count + 1 ≤ n := by
              split_ifs at h1 with hcm
              · simp only [Out.ok.injEq, Prod.mk.injEq] at h1; omega
              · exact repeatLoop_count_ge fuel inner caps none (some mxv)
                  (count + 1) inputClone n i1 h1
            exact ⟨input, by
              have : min n (np - 1) = count := by omega
              rw [this]⟩
          · rw [if_neg hcap]
            split_ifs at h1 ⊢ with hcm
            · simp only [Out.ok.injEq, Prod.mk.injEq] at h1
              exact ⟨inputClone, by
                have : min n (np - 1) = count + 1 := by omega
                rw [this, h1.1]⟩
            · exact ih (count + 1) inputClone n i1 (by omega) h1
      · simp only [Bool.not_eq_true] at hmat
        subst hmat
        have h1 : Out.ok (count, input) = Out.ok (n, i1) := h
        simp only [Out.ok.injEq, Prod.mk.injEq] at h1
        show ∃ i2, Out.ok (count, input) = .ok (min n (np - 1), i2)
        exact ⟨input, by
          have : min n (np - 1) = count := by omega
          rw [this]⟩

theorem test_repeat_succ (fuel : Nat) (inner : Matcher) (mn mx : Option Nat)
    (input : BufferedIterator) (caps : List (List Char))
    (bt : Option BacktrackInfo) :
    Matcher.test (fuel + 1) (.Repeat inner mn mx) input caps bt =
      (match Matcher.repeatLoop fuel inner caps bt mx 0 input with
       | .fuelOut => .fuelOut
       | .panicked => .panicked
       | .ok (count, input') =>
         match mn with
         | some mnv =>
           if count < mnv then .ok (false, [], none, input')
           else if count > 0 then .ok (true, [], some (.Range count), input')
           else .ok (true, [], none, input')
         | none =>
           if count > 0 then .ok (true, [], some (.Range count), input')
           else .ok (true, [], none, input')) := rfl

theorem repeat_verdict (mn : Option Nat) (c : Nat) (i : BufferedIterator) :
    (match mn with
     | some mnv =>
       if c < mnv then (.ok (false, [], none, i) : Out TestResult)
       else if c > 0 then .ok (true, [], some (.Range c), i)
       else .ok (true, [], none, i)
     | none =>
       if c > 0 then .ok (true, [], some (.Range c), i)
       else .ok (true, [], none, i)) =
      (if mn.getD 0 ≤ c then
        (.ok (true, [], if 0 < c then some (.Range c) else none, i) :
          Out TestResult)
      else .ok (false, [], none, i)) := by
  cases mn with
  | none =>
    simp only [Option.getD]
    split_ifs <;> first | rfl | omega
  | some mnv =>
    simp only [Option.getD]
    split_ifs <;> first | rfl | omega

/-- C3: for a Repeat node over a single-character or group body (the only
two shapes the parser produces), a first evaluation runs the greedy loop
from zero: with the loop's final count n, the node succeeds exactly when
n reaches the minimum, returns a Range handle carrying n exactly when
n is positive, and n never exceeds the maximum.  A resumed evaluation
with a handle carrying a positive count re-runs the same greedy loop
capped at one less repetition, yielding the minimum of the uncapped count
and the cap, with success again decided against the minimum and a handle
carrying the capped count exactly when it is positive. -/
theorem repeat_semantics (fuel : Nat) (inner : Matcher) (mn mx : Option Nat)
    (input : BufferedIterator) (caps : List (List Char))
    (n : Nat) (i1 : BufferedIterator)
    (hshape : inner.baseShape = true)
    (hfirst : Matcher.repeatLoop fuel inner caps none mx 0 input = .ok (n, i1)) :
    (Matcher.test (fuel + 1) (.Repeat inner mn mx) input caps none =
      (if mn.getD 0 ≤ n then
        (.ok (true, [], if 0 < n then some (.Range n) else none, i1) :
          Out TestResult)
      else .ok (false, [], none, i1))) ∧
    (∀ mxv, mx = some mxv → 0 < mxv → n ≤ mxv) ∧
    (∀ np, 0 < np → ∃ i2,
      Matcher.repeatLoop fuel inner caps (some (.Range np)) mx 0 input =
        .ok (min n (np - 1), i2) ∧
      Matcher.test (fuel + 1) (.Repeat inner mn mx) input caps
          (some (.Range np)) =
        (if mn.getD 0 ≤ min n (np - 1) then
          (.ok (true, [], if 0 < min n (np - 1) then
            some (.Range (min n (np - 1))) else none, i2) : Out TestResult)
        else .ok (false, [], none, i2))) := by
  refine ⟨?_, ?_, ?_⟩
  · rw [test_repeat_succ, hfirst]
    exact repeat_verdict mn n i1
  · intro mxv hmx hpos
    subst hmx
    exact repeatLoop_max_le fuel inner caps none mxv 0 input n i1 hpos hfirst
  · intro np hnp
    have hins : ∀ (f : Nat) (i : BufferedIterator),
        Matcher.test f inner i caps (some (.Range np)) =
          Matcher.test f inner i caps none :=
      fun f i => test_range_insensitive f inner i caps np hshape
    obtain ⟨i2, hcap⟩ := repeatLoop_capped inner caps mx np hnp hins fuel 0
      input n i1 (Nat.zero_le _) hfirst
    refine ⟨i2, hcap, ?_⟩
    rw [test_repeat_succ, hcap]
    exact repeat_verdict mn (min n (np - 1)) i2

/-- Witness for the Repeat theorem: the plus quantifier over the literal a
consumes both characters of the input aa, succeeds, and returns a Range
handle carrying two. -/
theorem repeat_semantics_witness :
    Matcher.test (10 + 1)
        (.Repeat (.SingleCharacter (.Literal 'a')) (some 1) none)
        ⟨[(0, 'a'), (1, 'a')], [], []⟩ [] none =
      .ok (true, [], some (.Range 2), ⟨[], ['a', 'a'], []⟩) := by
  have h := (repeat_semantics 10 (.SingleCharacter (.Literal 'a')) (some 1)
    none ⟨[(0, 'a'), (1, 'a')], [], []⟩ [] 2 ⟨[], ['a', 'a'], []⟩ rfl
    (by decide)).1
  rw [h]
  rfl

theorem splitOnAlt_segOk : ∀ l : List Matcher, Matcher.wfList l = true →
    ∀ seg ∈ splitOnAlt l, Matcher.segOk seg = true := by
  intro l
  induction l with
  | nil =>
    intro _ seg hseg
    simp only [splitOnAlt, List.mem_singleton] at hseg
    subst hseg
    rfl
  | cons m rest ih =>
    intro hwf seg hseg
    simp only [Matcher.wfList, Bool.and_eq_true] at hwf
    rw [splitOnAlt] at hseg
    cases hsp : splitOnAlt rest with
    | nil =>
      rw [hsp] at hseg
      simp only [List.mem_singleton] at hseg
      subst hseg
      rfl
    | cons s0 ss =>
      rw [hsp] at hseg
      have hseg2 : seg ∈ (if m.isAlt = true then [] :: s0 :: ss
          else (m :: s0) :: ss) := hseg
      by_cases halt : m.isAlt
      · rw [if_pos halt] at hseg2
        rcases List.mem_cons.mp hseg2 with h | h
        · subst h; rfl
        · exact ih hwf.2 seg (hsp ▸ h)
      · rw [if_neg halt] at hseg2
        rcases List.mem_cons.mp hseg2 with h | h
        · subst h
          have hs0 := ih hwf.2 s0 (hsp ▸ List.mem_cons_self s0 ss)
          simp only [Matcher.segOk, Matcher.wfList, List.all_cons,
            Bool.and_eq_true, Bool.not_eq_true'] at hs0 ⊢
          exact ⟨⟨hwf.1, hs0.1⟩, by simp [halt], hs0.2⟩
        · exact ih hwf.2 seg (hsp ▸ List.mem_cons_of_mem s0 h)

theorem backrefConsume_depth : ∀ (s : List Char) (it : BufferedIterator),
    (backrefConsume s it).2.subbuffers.length = it.subbuffers.length := by
  intro s
  induction s with
  | nil => intro it; rfl
  | cons ch rest ih =>
    intro it
    obtain ⟨rem, buf, subs⟩ := it
    cases rem with
    | nil => rfl
    | cons x xs =>
      obtain ⟨i, c⟩ := x
      have hnext : backrefConsume (ch :: rest) ⟨(i, c) :: xs, buf, subs⟩ =
          (if c = ch then backrefConsume rest
            ⟨xs, buf ++ [c], subs.map (· ++ [c])⟩
           else (false, ⟨xs, buf ++ [c], subs.map (· ++ [c])⟩)) := rfl
      rw [hnext]
      split_ifs with hx
      · rw [ih]; simp
      · simp

theorem matchLoop_succ_nil (fuel : Nat) (cg : List (List Char))
    (btStack : List GroupBacktrackState) (btInfo : Option BacktrackInfo)
    (bufInput : BufferedIterator) (oc ac : List (List Char)) :
    Matcher.matchLoop (fuel + 1) cg [] btStack btInfo bufInput oc ac =
      (match bufInput.popDivided with
       | none => .panicked
       | some (mv, b2) => .ok (some (b2, mv :: oc, btStack))) := rfl

theorem matchLoop_succ_cons (fuel : Nat) (cg : List (List Char)) (m : Matcher)
    (rest : List Matcher) (btStack : List GroupBacktrackState)
    (btInfo : Option BacktrackInfo) (bufInput : BufferedIterator)
    (oc ac : List (List Char)) :
    Matcher.matchLoop (fuel + 1) cg (m :: rest) btStack btInfo bufInput oc ac =
      (match Matcher.test fuel m bufInput ac btInfo with
       | .fuelOut => .fuelOut
       | .panicked => .panicked
       | .ok (matched, captures, bt, bufInput2) =>
         if matched then
           Matcher.matchLoop fuel cg rest
             (match bt with
              | some b => (bufInput, oc, b, m :: rest) :: btStack
              | none => btStack) none bufInput2 (oc ++ captures)
             (ac ++ captures)
         else
           match btStack with
           | [] => .ok none
           | (sInput, sCaps, sBt, sMs) :: btStack2 =>
             Matcher.matchLoop fuel cg sMs btStack2 (some sBt) sInput sCaps
               (cg ++ [[]] ++ sCaps)) := rfl

theorem optionLoop_succ_nil (fuel : Nat) (caps : List (List Char))
    (bt : Option BacktrackInfo) (input : BufferedIterator) (oid : Nat) :
    Matcher.optionLoop (fuel + 1) caps bt input [] oid =
      .ok (false, [], none, input) := rfl

theorem optionLoop_succ_cons (fuel : Nat) (caps : List (List Char))
    (bt : Option BacktrackInfo) (input : BufferedIterator)
    (option : List Matcher) (rest : List (List Matcher)) (oid : Nat) :
    Matcher.optionLoop (fuel + 1) caps bt input (option :: rest) oid =
      (match (match bt with
              | some (.Group so stack) =>
                if so = oid then
                  (if stack.isEmpty then none else some stack)
                else some []
              | _ => some []) with
       | none => Matcher.optionLoop fuel caps bt input rest (oid + 1)
       | some stack0 =>
         match (match stack0 with
                | [] => (option, ([] : List GroupBacktrackState),
                  (none : Option BacktrackInfo), input.subdivide,
                  ([] : List (List Char)), caps ++ [[]])
                | (sInput, sCaps, sBt, sMs) :: stack2 =>
                  (sMs, stack2, some sBt, sInput, sCaps,
                    caps ++ [[]] ++ sCaps)) with
         | (ms, stack1, btInfo, bufInput1, ourCaptures, allCaptures) =>
           match Matcher.matchLoop fuel caps ms stack1 btInfo bufInput1
               ourCaptures allCaptures with
           | .fuelOut => .fuelOut
           | .panicked => .panicked
           | .ok none => Matcher.optionLoop fuel caps bt input rest (oid + 1)
           | .ok (some (bufInput2, ourCaptures2, stack2)) =>
             .ok (true, ourCaptures2, some (.Group oid stack2), bufInput2)) :=
  rfl

theorem optionLoop_succ_cons_group (fuel : Nat) (caps : List (List Char))
    (so : Nat) (stack : List GroupBacktrackState) (input : BufferedIterator)
    (option : List Matcher) (rest : List (List Matcher)) (oid : Nat) :
    Matcher.optionLoop (fuel + 1) caps (some (.Group so stack)) input
        (option :: rest) oid =
      (match (if so = oid then
          (if stack.isEmpty then none else some stack) else some []) with
       | none => Matcher.optionLoop fuel caps (some (.Group so stack)) input
           rest (oid + 1)
       | some stack0 =>
         match (match stack0 with
                | [] => (option, ([] : List GroupBacktrackState),
                  (none : Option BacktrackInfo), input.subdivide,
                  ([] : List (List Char)), caps ++ [[]])
                | (sInput, sCaps, sBt, sMs) :: stack2 =>
                  (sMs, stack2, some sBt, sInput, sCaps,
                    caps ++ [[]] ++ sCaps)) with
         | (ms, stack1, btInfo, bufInput1, ourCaptures, allCaptures) =>
           match Matcher.matchLoop fuel caps ms stack1 btInfo bufInput1
               ourCaptures allCaptures with
           | .fuelOut => .fuelOut
           | .panicked => .panicked
           | .ok none => Matcher.optionLoop fuel caps
               (some (.Group so stack)) input rest (oid + 1)
           | .ok (some (bufInput2, ourCaptures2, stack2)) =>
             .ok (true, ourCaptures2, some (.Group oid stack2), bufInput2)) :=
  rfl

theorem next_depth (input : BufferedIterator) (x : Nat × Char)
    (it2 : BufferedIterator) (h : input.next = some (x, it2)) :
    it2.subbuffers.length = input.subbuffers.length := by
  unfold BufferedIterator.next at h
  cases hrem : input.remaining with
  | nil => rw [hrem] at h; simp at h
  | cons y ys =>
    rw [hrem] at h
    simp only [Option.some.injEq, Prod.mk.injEq] at h
    rw [← h.2]
    simp

theorem baseShape_not_alt (m : Matcher) (h : m.baseShape = true) :
    m.isAlt = false := by
  cases m <;> simp [Matcher.baseShape, Matcher.isAlt] at h ⊢

theorem optOk_none (d : Nat) : OptOk d none := fun _ hb => nomatch hb

theorem evaluator_no_panic : ∀ fuel : Nat,
    (∀ (m : Matcher) (input : BufferedIterator) (caps : List (List Char))
      (bt : Option BacktrackInfo) (k : Nat),
      Matcher.wf m = true → m.isAlt = false →
      input.subbuffers.length = k → OptOk k bt →
      Matcher.test fuel m input caps bt ≠ .panicked ∧
      (∀ b caps2 bt2 input2,
        Matcher.test fuel m input caps bt = .ok (b, caps2, bt2, input2) →
        input2.subbuffers.length = k ∧ OptOk k bt2 ∧
        (∀ inner2, m = .CaptureGroup inner2 → b = true → caps2 ≠ []))) ∧
    (∀ (inner : Matcher) (caps : List (List Char)) (bt : Option BacktrackInfo)
      (mx : Option Nat) (count : Nat) (input : BufferedIterator) (k : Nat),
      Matcher.wf inner = true → inner.baseShape = true →
      input.subbuffers.length = k → OptOk k bt →
      Matcher.repeatLoop fuel inner caps bt mx count input ≠ .panicked ∧
      (∀ n i2, Matcher.repeatLoop fuel inner caps bt mx count input =
          .ok (n, i2) → i2.subbuffers.length = k)) ∧
    (∀ (cg : List (List Char)) (ms : List Matcher)
      (btStack : List GroupBacktrackState) (btInfo : Option BacktrackInfo)
      (bufInput : BufferedIterator) (oc ac : List (List Char)) (d : Nat),
      1 ≤ d → Matcher.segOk ms = true →
      bufInput.subbuffers.length = d →
      (∀ fr ∈ btStack, fr.1.subbuffers.length = d ∧ HandleOk d fr.2.2.1 ∧
        Matcher.segOk fr.2.2.2 = true) →
      OptOk d btInfo →
      Matcher.matchLoop fuel cg ms btStack btInfo bufInput oc ac ≠ .panicked ∧
      (∀ i2 oc2 st, Matcher.matchLoop fuel cg ms btStack btInfo bufInput oc ac =
          .ok (some (i2, oc2, st)) →
        i2.subbuffers.length = d - 1 ∧ oc2 ≠ [] ∧
        (∀ fr ∈ st, fr.1.subbuffers.length = d ∧ HandleOk d fr.2.2.1 ∧
          Matcher.segOk fr.2.2.2 = true))) ∧
    (∀ (caps : List (List Char)) (bt : Option BacktrackInfo)
      (input : BufferedIterator) (options : List (List Matcher)) (oid k : Nat),
      input.subbuffers.length = k →
      (∀ seg ∈ options, Matcher.segOk seg = true) →
      OptOk k bt →
      Matcher.optionLoop fuel caps bt input options oid ≠ .panicked ∧
      (∀ b caps2 bt2 input2,
        Matcher.optionLoop fuel caps bt input options oid =
          .ok (b, caps2, bt2, input2) →
        input2.subbuffers.length = k ∧ OptOk k bt2 ∧
          (b = true → caps2 ≠ []))) ∧
    (∀ (inner : List Matcher) (input : BufferedIterator)
      (caps : List (List Char)) (bt : Option BacktrackInfo) (k : Nat),
      Matcher.wfList inner = true → input.subbuffers.length = k → OptOk k bt →
      Matcher.testGroup fuel inner input caps bt ≠ .panicked ∧
      (∀ b caps2 bt2 input2,
        Matcher.testGroup fuel inner input caps bt = .ok (b, caps2, bt2, input2) →
        input2.subbuffers.length = k ∧ OptOk k bt2 ∧
          (b = true → caps2 ≠ []))) := by
  intro fuel
  induction fuel with
  | zero =>
    refine ⟨fun m input caps bt k _ _ _ _ =>
        ⟨by simp [Matcher.test], fun b c2 b2 i2 h => by simp [Matcher.test] at h⟩,
      fun inner caps bt mx count input k _ _ _ _ =>
        ⟨by simp [Matcher.repeatLoop],
         fun n i2 h => by simp [Matcher.repeatLoop] at h⟩,
      fun cg ms btStack btInfo bufInput oc ac d _ _ _ _ _ =>
        ⟨by simp [Matcher.matchLoop],
         fun i2 oc2 st h => by simp [Matcher.matchLoop] at h⟩,
      fun caps bt input options oid k _ _ _ =>
        ⟨by simp [Matcher.optionLoop],
         fun b c2 b2 i2 h => by simp [Matcher.optionLoop] at h⟩,
      fun inner input caps bt k _ _ _ =>
        ⟨by simp [Matcher.testGroup],
         fun b c2 b2 i2 h => by simp [Matcher.testGroup] at h⟩⟩
  | succ fuel ih =>
    obtain ⟨ihT, ihR, ihM, ihO, ihG⟩ := ih
    have hTest : ∀ (m : Matcher) (input : BufferedIterator)
        (caps : List (List Char)) (bt : Option BacktrackInfo) (k : Nat),
        Matcher.wf m = true → m.isAlt = false →
        input.subbuffers.length = k → OptOk k bt →
        Matcher.test (fuel + 1) m input caps bt ≠ .panicked ∧
        (∀ b caps2 bt2 input2,
          Matcher.test (fuel + 1) m input caps bt = .ok (b, caps2, bt2, input2) →
          input2.subbuffers.length = k ∧ OptOk k bt2 ∧
          (∀ inner2, m = .CaptureGroup inner2 → b = true → caps2 ≠ [])) := by
      intro m input caps bt k hwf halt hd hopt
      cases m with
      | SingleCharacter c =>
        cases hnext : input.next with
        | none =>
          refine ⟨by simp [Matcher.test, hnext], fun b c2 b2 i2 heq => ?_⟩
          have heq2 : (Out.ok (false, [], none, input) : Out TestResult) =
              .ok (b, c2, b2, i2) := by rw [← heq]; simp [Matcher.test, hnext]
          simp only [Out.ok.injEq, Prod.mk.injEq] at heq2
          obtain ⟨rfl, rfl, rfl, rfl⟩ := heq2
          exact ⟨hd, optOk_none k, fun inner2 hm => by simp at hm⟩
        | some pr =>
          obtain ⟨⟨idx, ch⟩, it2⟩ := pr
          have hdep := next_depth input (idx, ch) it2 hnext
          refine ⟨by simp [Matcher.test, hnext], fun b c2 b2 i2 heq => ?_⟩
          have heq2 : (Out.ok (c.test ch, [], none, it2) : Out TestResult) =
              .ok (b, c2, b2, i2) := by rw [← heq]; simp [Matcher.test, hnext]
          simp only [Out.ok.injEq, Prod.mk.injEq] at heq2
          obtain ⟨rfl, rfl, rfl, rfl⟩ := heq2
          exact ⟨by omega, optOk_none k, fun inner2 hm => by simp at hm⟩
      | StartOfString =>
        refine ⟨by simp [Matcher.test], fun b c2 b2 i2 heq => ?_⟩
        have heq2 : (Out.ok ((match input.remaining.head? with
            | some (idx, _) => decide (idx = 0)
            | none => false), [], none, input) : Out TestResult) =
            .ok (b, c2, b2, i2) := heq
        simp only [Out.ok.injEq, Prod.mk.injEq] at heq2
        obtain ⟨rfl, rfl, rfl, rfl⟩ := heq2
        exact ⟨hd, optOk_none k, fun inner2 hm => by simp at hm⟩
      | EndOfString =>
        refine ⟨by simp [Matcher.test], fun b c2 b2 i2 heq => ?_⟩
        have heq2 : (Out.ok (input.remaining.head?.isNone, [], none, input) :
            Out TestResult) = .ok (b, c2, b2, i2) := heq
        simp only [Out.ok.injEq, Prod.mk.injEq] at heq2
        obtain ⟨rfl, rfl, rfl, rfl⟩ := heq2
        exact ⟨hd, optOk_none k, fun inner2 hm => by simp at hm⟩
      | Alternative => simp [Matcher.isAlt] at halt
      | Backreference idx =>
        have hunf : Matcher.test (fuel + 1) (.Backreference idx) input caps bt =
            if idx ≥ caps.length then .ok (false, [], none, input)
            else .ok ((backrefConsume (caps.getD idx []) input).1, [], none,
              (backrefConsume (caps.getD idx []) input).2) := rfl
        rw [hunf]
        refine ⟨by split_ifs <;> simp, fun b c2 b2 i2 heq => ?_⟩
        split_ifs at heq
        · simp only [Out.ok.injEq, Prod.mk.injEq] at heq
          obtain ⟨rfl, rfl, rfl, rfl⟩ := heq
          exact ⟨hd, optOk_none k, fun inner2 hm => by simp at hm⟩
        · simp only [Out.ok.injEq, Prod.mk.injEq] at heq
          obtain ⟨rfl, rfl, rfl, rfl⟩ := heq
          refine ⟨?_, optOk_none k, fun inner2 hm => by simp at hm⟩
          rw [backrefConsume_depth]
          exact hd
      | CaptureGroup inner =>
        have hwfl : Matcher.wfList inner = true := by
          simpa [Matcher.wf] using hwf
        have hg := ihG inner input caps bt k hwfl hd hopt
        refine ⟨hg.1, fun b c2 b2 i2 heq => ?_⟩
        have heq2 : Matcher.testGroup fuel inner input caps bt =
            .ok (b, c2, b2, i2) := heq
        obtain ⟨h1, h2, h3⟩ := hg.2 b c2 b2 i2 heq2
        exact ⟨h1, h2, fun inner2 hm hb => h3 hb⟩
      | Repeat inner mn mx =>
        have hwf2 : inner.baseShape = true ∧ Matcher.wf inner = true := by
          simpa [Matcher.wf, Bool.and_eq_true] using hwf
        have hrep := ihR inner caps bt mx 0 input k hwf2.2 hwf2.1 hd hopt
        rw [test_repeat_succ]
        cases hloop : Matcher.repeatLoop fuel inner caps bt mx 0 input with
        | fuelOut =>
          exact ⟨by simp, fun b c2 b2 i2 h => by simp at h⟩
        | panicked => exact absurd hloop hrep.1
        | ok v =>
          obtain ⟨count, i2⟩ := v
          have hdep := hrep.2 count i2 hloop
          constructor
          · cases mn with
            | some mnv =>
              show (if count < mnv then (.ok (false, [], none, i2) : Out TestResult)
                else if count > 0 then .ok (true, [], some (.Range count), i2)
                else .ok (true, [], none, i2)) ≠ .panicked
              split_ifs <;> simp
            | none =>
              show (if count > 0 then
                (.ok (true, [], some (.Range count), i2) : Out TestResult)
                else .ok (true, [], none, i2)) ≠ .panicked
              split_ifs <;> simp
          · intro b c2 b2 i3 heq
            cases mn with
            | some mnv =>
              have heq2 : (if count < mnv then
                  (.ok (false, [], none, i2) : Out TestResult)
                  else if count > 0 then .ok (true, [], some (.Range count), i2)
                  else .ok (true, [], none, i2)) = .ok (b, c2, b2, i3) := heq
              split_ifs at heq2 with h1 h2 <;>
                (simp only [Out.ok.injEq, Prod.mk.injEq] at heq2;
                 obtain ⟨rfl, rfl, rfl, rfl⟩ := heq2)
              · exact ⟨hdep, optOk_none k, fun inner2 hm => by simp at hm⟩
              · refine ⟨hdep, fun bb hbb => ?_, fun inner2 hm => by simp at hm⟩
                cases hbb
                exact HandleOk.range k count h2
              · exact ⟨hdep, optOk_none k, fun inner2 hm => by simp at hm⟩
            | none =>
              have heq2 : (if count > 0 then
                  (.ok (true, [], some (.Range count), i2) : Out TestResult)
                  else .ok (true, [], none, i2)) = .ok (b, c2, b2, i3) := heq
              split_ifs at heq2 with h1 <;>
                (simp only [Out.ok.injEq, Prod.mk.injEq] at heq2;
                 obtain ⟨rfl, rfl, rfl, rfl⟩ := heq2)
              · refine ⟨hdep, fun bb hbb => ?_, fun inner2 hm => by simp at hm⟩
                cases hbb
                exact HandleOk.range k count h1
              · exact ⟨hdep, optOk_none k, fun inner2 hm => by simp at hm⟩
    refine ⟨hTest, ?_, ?_, ?_, ?_⟩
    · -- repeatLoop
      intro inner caps bt mx count input k hwf hshape hd hopt
      rw [repeatLoop_succ]
      have htest := ihT inner input caps bt k hwf
        (baseShape_not_alt inner hshape) hd hopt
      cases hts : Matcher.test fuel inner input caps bt with
      | fuelOut => exact ⟨by simp, fun n i2 h => by simp at h⟩
      | panicked => exact absurd hts htest.1
      | ok v =>
        obtain ⟨matched, c2, b2, ic⟩ := v
        have hic : ic.subbuffers.length = k := (htest.2 matched c2 b2 ic hts).1
        have hrec := ihR inner caps bt mx (count + 1) ic k hwf hshape hic hopt
        have hstepN : (match mx with
            | some mxv =>
              if count + 1 = mxv then
                (.ok (count + 1, ic) : Out (Nat × BufferedIterator))
              else Matcher.repeatLoop fuel inner caps bt mx (count + 1) ic
            | none => Matcher.repeatLoop fuel inner caps bt mx (count + 1) ic)
              ≠ .panicked ∧
            (∀ n i2, (match mx with
              | some mxv =>
                if count + 1 = mxv then
                  (.ok (count + 1, ic) : Out (Nat × BufferedIterator))
                else Matcher.repeatLoop fuel inner caps bt mx (count + 1) ic
              | none => Matcher.repeatLoop fuel inner caps bt mx (count + 1) ic)
                = .ok (n, i2) → i2.subbuffers.length = k) := by
          cases mx with
          | none => exact ⟨hrec.1, hrec.2⟩
          | some mxv =>
            constructor
            · show (if count + 1 = mxv then
                  (.ok (count + 1, ic) : Out (Nat × BufferedIterator))
                else Matcher.repeatLoop fuel inner caps bt (some mxv)
                  (count + 1) ic) ≠ .panicked
              split_ifs with hc
              · simp
              · exact hrec.1
            · intro n i2 h
              have h2 : (if count + 1 = mxv then
                  (.ok (count + 1, ic) : Out (Nat × BufferedIterator))
                  else Matcher.repeatLoop fuel inner caps bt (some mxv)
                    (count + 1) ic) = .ok (n, i2) := h
              split_ifs at h2 with hc
              · simp only [Out.ok.injEq, Prod.mk.injEq] at h2
                rw [← h2.2]
                exact hic
              · exact hrec.2 n i2 h2
        by_cases hmat : matched
        · subst hmat
          cases bt with
          | none => exact ⟨hstepN.1, hstepN.2⟩
          | some b =>
            cases b with
            | Range consumed =>
              have hcpos : 0 < consumed := by
                have hh := hopt (BacktrackInfo.Range consumed) rfl
                cases hh with
                | range _ _ h => exact h
              constructor
              · show (if consumed = 0 then
                    (Out.panicked : Out (Nat × BufferedIterator))
                  else if count ≥ consumed - 1 then .ok (count, input)
                  else match mx with
                    | some mxv =>
                      if count + 1 = mxv then .ok (count + 1, ic)
                      else Matcher.repeatLoop fuel inner caps
                        (some (.Range consumed)) mx (count + 1) ic
                    | none => Matcher.repeatLoop fuel inner caps
                        (some (.Range consumed)) mx (count + 1) ic)
                    ≠ .panicked
                rw [if_neg (by omega)]
                split_ifs with hcap
                · simp
                · exact hstepN.1
              · intro n i2 h
                have h2 : (if consumed = 0 then
                    (Out.panicked : Out (Nat × BufferedIterator))
                    else if count ≥ consumed - 1 then .ok (count, input)
                    else match mx with
                      | some mxv =>
                        if count + 1 = mxv then .ok (count + 1, ic)
                        else Matcher.repeatLoop fuel inner caps
                          (some (.Range consumed)) mx (count + 1) ic
                      | none => Matcher.repeatLoop fuel inner caps
                          (some (.Range consumed)) mx (count + 1) ic) =
                    .ok (n, i2) := h
                rw [if_neg (by omega)] at h2
                split_ifs at h2 with hcap
                · simp only [Out.ok.injEq, Prod.mk.injEq] at h2
                  rw [← h2.2]
                  exact hd
                · exact hstepN.2 n i2 h2
            | Group id st => exact ⟨hstepN.1, hstepN.2⟩
            | noInfo => exact ⟨hstepN.1, hstepN.2⟩
        · simp only [Bool.not_eq_true] at hmat
          subst hmat
          refine ⟨by simp, fun n i2 h => ?_⟩
          have h2 : (Out.ok (count, input) : Out (Nat × BufferedIterator)) =
              .ok (n, i2) := h
          simp only [Out.ok.injEq, Prod.mk.injEq] at h2
          rw [← h2.2]
          exact hd
    · -- matchLoop
      intro cg ms btStack btInfo bufInput oc ac d hd1 hseg hdep hstack hopt
      cases ms with
      | nil =>
        rw [matchLoop_succ_nil]
        obtain ⟨rem, buf, subs⟩ := bufInput
        cases subs with
        | nil => simp at hdep; omega
        | cons s subs2 =>
          refine ⟨by simp [BufferedIterator.popDivided],
            fun i2 oc2 st h => ?_⟩
          have h2 : (Out.ok (some ((⟨rem, buf, subs2⟩ : BufferedIterator),
              s :: oc, btStack)) : Out (Option (BufferedIterator ×
                List (List Char) × List GroupBacktrackState))) =
              .ok (some (i2, oc2, st)) := h
          simp only [Out.ok.injEq, Option.some.injEq, Prod.mk.injEq] at h2
          obtain ⟨h21, h22, h23⟩ := h2
          refine ⟨?_, ?_, ?_⟩
          · rw [← h21]
            simp only [List.length_cons] at hdep
            simp
            omega
          · rw [← h22]; simp
          · rw [← h23]; exact hstack
      | cons m rest =>
        rw [matchLoop_succ_cons]
        have hsegm : Matcher.wf m = true ∧ m.isAlt = false ∧
            Matcher.segOk rest = true := by
          simp only [Matcher.segOk, Matcher.wfList, List.all_cons,
            Bool.and_eq_true, Bool.not_eq_true'] at hseg
          refine ⟨hseg.1.1, hseg.2.1, ?_⟩
          simp only [Matcher.segOk, Bool.and_eq_true]
          exact ⟨hseg.1.2, hseg.2.2⟩
        have htest := ihT m bufInput ac btInfo d hsegm.1 hsegm.2.1 hdep hopt
        cases hts : Matcher.test fuel m bufInput ac btInfo with
        | fuelOut => exact ⟨by simp, fun i2 oc2 st h => by simp at h⟩
        | panicked => exact absurd hts htest.1
        | ok v =>
          obtain ⟨matched, captures, bt, bufInput2⟩ := v
          obtain ⟨hdep2, hoptbt, _⟩ := htest.2 matched captures bt bufInput2 hts
          by_cases hmat : matched
          · subst hmat
            have hstack2 : ∀ fr ∈ (match bt with
                | some b => ((bufInput, oc, b, m :: rest) :
                    GroupBacktrackState) :: btStack
                | none => btStack),
                fr.1.subbuffers.length = d ∧ HandleOk d fr.2.2.1 ∧
                  Matcher.segOk fr.2.2.2 = true := by
              cases bt with
              | none => exact hstack
              | some b =>
                intro fr hfr
                rcases List.mem_cons.mp hfr with h | h
                · subst h
                  exact ⟨hdep, hoptbt b rfl, hseg⟩
                · exact hstack fr h
            exact ihM cg rest _ none bufInput2 (oc ++ captures)
              (ac ++ captures) d hd1 hsegm.2.2 hdep2 hstack2 (optOk_none d)
          · simp only [Bool.not_eq_true] at hmat
            subst hmat
            cases btStack with
            | nil => exact ⟨by simp, fun i2 oc2 st h => by simp at h⟩
            | cons fr btStack2 =>
              obtain ⟨sInput, sCaps, sBt, sMs⟩ := fr
              obtain ⟨hfd, hfh, hfs⟩ := hstack (sInput, sCaps, sBt, sMs)
                (List.mem_cons_self _ _)
              exact ihM cg sMs btStack2 (some sBt) sInput sCaps
                (cg ++ [[]] ++ sCaps) d hd1 hfs hfd
                (fun fr2 h2 => hstack fr2 (List.mem_cons_of_mem _ h2))
                (fun b hb => by cases hb; exact hfh)
    · -- optionLoop
      intro caps bt input options oid k hdep hsegs hopt
      cases options with
      | nil =>
        rw [optionLoop_succ_nil]
        refine ⟨by simp, fun b c2 b2 i2 h => ?_⟩
        have h2 : (Out.ok (false, [], none, input) : Out TestResult) =
            .ok (b, c2, b2, i2) := h
        simp only [Out.ok.injEq, Prod.mk.injEq] at h2
        obtain ⟨rfl, rfl, rfl, rfl⟩ := h2
        exact ⟨hdep, optOk_none k, by simp⟩
      | cons option rest =>
        have hsegr : ∀ seg ∈ rest, Matcher.segOk seg = true :=
          fun seg h => hsegs seg (List.mem_cons_of_mem _ h)
        have hsego : Matcher.segOk option = true :=
          hsegs option (List.mem_cons_self _ _)
        have hrecO := ihO caps bt input rest (oid + 1) k hdep hsegr hopt
        have hrun : ∀ (ms : List Matcher) (stack1 : List GroupBacktrackState)
            (btInfo : Option BacktrackInfo) (bufInput1 : BufferedIterator)
            (ourCaps allCaps : List (List Char)),
            Matcher.segOk ms = true →
            bufInput1.subbuffers.length = k + 1 →
            (∀ fr ∈ stack1, fr.1.subbuffers.length = k + 1 ∧
              HandleOk (k + 1) fr.2.2.1 ∧ Matcher.segOk fr.2.2.2 = true) →
            OptOk (k + 1) btInfo →
            (match Matcher.matchLoop fuel caps ms stack1 btInfo bufInput1
                ourCaps allCaps with
             | .fuelOut => (.fuelOut : Out TestResult)
             | .panicked => .panicked
             | .ok none => Matcher.optionLoop fuel caps bt input rest (oid + 1)
             | .ok (some (bufInput2, ourCaptures2, stack2)) =>
               .ok (true, ourCaptures2, some (.Group oid stack2), bufInput2))
              ≠ .panicked ∧
            (∀ b c2 b2 i2,
              (match Matcher.matchLoop fuel caps ms stack1 btInfo bufInput1
                  ourCaps allCaps with
               | .fuelOut => (.fuelOut : Out TestResult)
               | .panicked => .panicked
               | .ok none =>
                 Matcher.optionLoop fuel caps bt input rest (oid + 1)
               | .ok (some (bufInput2, ourCaptures2, stack2)) =>
                 .ok (true, ourCaptures2, some (.Group oid stack2),
                   bufInput2)) = .ok (b, c2, b2, i2) →
              i2.subbuffers.length = k ∧ OptOk k b2 ∧
                (b = true → c2 ≠ [])) := by
          intro ms stack1 btInfo bufInput1 ourCaps allCaps hms hb1 hst1 hbi
          have hm := ihM caps ms stack1 btInfo bufInput1 ourCaps allCaps
            (k + 1) (by omega) hms hb1 hst1 hbi
          cases hml : Matcher.matchLoop fuel caps ms stack1 btInfo bufInput1
              ourCaps allCaps with
          | fuelOut => exact ⟨by simp, fun b c2 b2 i2 h => by simp at h⟩
          | panicked => exact absurd hml hm.1
          | ok v =>
            cases v with
            | none => exact ⟨hrecO.1, hrecO.2⟩
            | some w =>
              obtain ⟨bufInput2, oc2, st2⟩ := w
              obtain ⟨hw1, hw2, hw3⟩ := hm.2 bufInput2 oc2 st2 hml
              refine ⟨by simp, fun b c2 b2 i2 h => ?_⟩
              have h2 : (Out.ok (true, oc2, some (.Group oid st2),
                  bufInput2) : Out TestResult) = .ok (b, c2, b2, i2) := h
              simp only [Out.ok.injEq, Prod.mk.injEq] at h2
              obtain ⟨rfl, rfl, rfl, rfl⟩ := h2
              refine ⟨by omega, ?_, fun _ => hw2⟩
              intro bb hbb
              cases hbb
              exact HandleOk.group k oid st2 (fun fr h => (hw3 fr h).1)
                (fun fr h => (hw3 fr h).2.1) (fun fr h => (hw3 fr h).2.2)
        have hfreshArgs : (input.subdivide).subbuffers.length = k + 1 := by
          simp [BufferedIterator.subdivide, hdep]
        have hfresh := hrun option [] none input.subdivide [] (caps ++ [[]])
          hsego hfreshArgs (fun fr h => absurd h (List.not_mem_nil fr))
          (optOk_none (k + 1))
        cases bt with
        | none => exact ⟨hfresh.1, hfresh.2⟩
        | some b =>
          cases b with
          | Range n => exact ⟨hfresh.1, hfresh.2⟩
          | noInfo => exact ⟨hfresh.1, hfresh.2⟩
          | Group so stack =>
            rw [optionLoop_succ_cons_group]
            by_cases hso : so = oid
            · subst hso
              rw [if_pos rfl]
              cases stack with
              | nil =>
                rw [show (List.isEmpty ([] : List GroupBacktrackState)) =
                  true from rfl, if_pos rfl]
                exact ⟨hrecO.1, hrecO.2⟩
              | cons fr stack2 =>
                rw [show (List.isEmpty (fr :: stack2)) = false from rfl]
                simp only [Bool.false_eq_true, if_false]
                obtain ⟨sInput, sCaps, sBt, sMs⟩ := fr
                have hg := hopt (BacktrackInfo.Group so (
                  (sInput, sCaps, sBt, sMs) :: stack2)) rfl
                cases hg with
                | group _ _ _ hl hh hs =>
                  exact hrun sMs stack2 (some sBt) sInput sCaps
                    (caps ++ [[]] ++ sCaps)
                    (hs (sInput, sCaps, sBt, sMs) (List.mem_cons_self _ _))
                    (hl (sInput, sCaps, sBt, sMs) (List.mem_cons_self _ _))
                    (fun fr2 h2 => ⟨hl fr2 (List.mem_cons_of_mem _ h2),
                      hh fr2 (List.mem_cons_of_mem _ h2),
                      hs fr2 (List.mem_cons_of_mem _ h2)⟩)
                    (fun b2 hb2 => by
                      cases hb2
                      exact hh (sInput, sCaps, sBt, sMs)
                        (List.mem_cons_self _ _))
            · rw [if_neg hso]
              exact ⟨hfresh.1, hfresh.2⟩
    · -- testGroup
      intro inner input caps bt k hwfl hdep hopt
      have hsegs := splitOnAlt_segOk inner hwfl
      have h := ihO caps bt input (splitOnAlt inner) 0 k hdep hsegs hopt
      exact ⟨h.1, h.2⟩

theorem testSection_no_panic (p : Pattern)
    (hwf : Matcher.wfList p.matchers = true) :
    ∀ (fuel : Nat) (rem : List (Nat × Char)) (buf : List Char),
    Pattern.testSection fuel p ⟨rem, buf, []⟩ ≠ .panicked := by
  intro fuel rem buf
  cases fuel with
  | zero => simp [Pattern.testSection, Matcher.test]
  | succ fuel =>
    have hT := (evaluator_no_panic (fuel + 1)).1 (.CaptureGroup p.matchers)
      ⟨rem, buf, []⟩ [] none 0 (by simpa [Matcher.wf] using hwf) rfl rfl
      (optOk_none 0)
    unfold Pattern.testSection
    cases hts : Matcher.test (fuel + 1) (.CaptureGroup p.matchers)
        ⟨rem, buf, []⟩ [] none with
    | fuelOut => simp
    | panicked => exact absurd hts hT.1
    | ok v =>
      obtain ⟨b, caps2, bt2, i2⟩ := v
      obtain ⟨_, _, hne⟩ := hT.2 b caps2 bt2 i2 hts
      cases b with
      | false => simp
      | true =>
        have hcaps : caps2 ≠ [] := hne p.matchers rfl rfl
        cases caps2 with
        | nil => exact absurd rfl hcaps
        | cons c0 cs => simp

/-- C9: evaluation of a successfully compiled pattern through Pattern::run
or Pattern::test never reaches a panic site, for any input and fuel: the
Alternative todo arm is unreachable because group evaluation splits every
sequence on Alt before evaluating children and the parser never puts Alt
under a Repeat; the pop_divided expect at group completion always finds
the subdivision buffer pushed at group entry; the give-back subtraction
never underflows because Range handles are only created with a positive
count; and the capture-list remove at test_section always sees the
nonempty capture list a successful group returns. -/
theorem run_panic_free (s : List Char) (p : Pattern)
    (h : Pattern.new s = .ok p) (fuel : Nat) (line : List Char) :
    Pattern.run fuel p line ≠ .panicked ∧
    Pattern.test fuel p line ≠ .panicked := by
  have hwf := pattern_new_wf s p h
  have hsec := testSection_no_panic p hwf
  have hrun : ∀ (l : List (Nat × Char)) (buf : List Char),
      Pattern.runLoop fuel p l buf ≠ .panicked := by
    intro l
    induction l with
    | nil => intro buf; simp [Pattern.runLoop]
    | cons x xs ih =>
      intro buf
      have hunf : Pattern.runLoop fuel p (x :: xs) buf =
          (match Pattern.testSection fuel p ⟨x :: xs, buf, []⟩ with
           | .fuelOut => .fuelOut
           | .panicked => .panicked
           | .ok (true, captures, input2) => .ok (true, input2.buffer, captures)
           | .ok (false, _, _) => Pattern.runLoop fuel p xs (buf ++ [x.2])) :=
        rfl
      rw [hunf]
      cases hs : Pattern.testSection fuel p ⟨x :: xs, buf, []⟩ with
      | fuelOut => simp
      | panicked => exact absurd hs (hsec fuel (x :: xs) buf)
      | ok v =>
        obtain ⟨b, caps2, i2⟩ := v
        cases b with
        | true => simp
        | false => exact ih (buf ++ [x.2])
  have h1 : Pattern.run fuel p line ≠ .panicked := hrun _ _
  refine ⟨h1, ?_⟩
  unfold Pattern.test
  cases hr : Pattern.run fuel p line with
  | ok v => simp [Out.map]
  | panicked => exact absurd hr h1
  | fuelOut => simp [Out.map]

/-- Witness for the panic-freedom theorem on the compiled plus-quantifier
pattern at a concrete input and fuel. -/
theorem run_panic_free_witness :
    Pattern.run 40 ⟨[.Repeat (.SingleCharacter (.Literal 'a'))
        (some 1) none]⟩ "ab".data ≠ .panicked ∧
    Pattern.test 40 ⟨[.Repeat (.SingleCharacter (.Literal 'a'))
        (some 1) none]⟩ "ab".data ≠ .panicked :=
  run_panic_free "a+".data
    ⟨[.Repeat (.SingleCharacter (.Literal 'a')) (some 1) none]⟩ rfl 40
    "ab".data

end GrepRust
